import Mathlib

/-!
# markdown-review-daily: the cron matcher and the header scanner

A shallow embedding of `markdown_review_daily.go`.

* Go strings are modelled as lists of Unicode code points (`Str`); the
  source only ever inspects them through functions of `strings`, `strconv`
  and `path/filepath`, whose behaviour on valid UTF-8 text is determined by
  the code points.
* Go's `int` is the 64-bit two's-complement integer: values are `Int`s in
  `[-2^63, 2^63)`, subtraction wraps, and `%` is the truncated remainder that
  panics on a zero divisor.
* A function that can panic at run time returns `Option`, `none` being the
  panic.
* The file system, the working directory and the clock are arguments: a
  `World` and a `TimePoint`.
-/

namespace MarkdownReviewDaily

/-- A Go string, as the list of its code points. -/
abbrev Str := List Char

/-! ## The Go standard library functions the source calls -/

/-- Go `unicode.IsSpace`: the code points with the White_Space property. -/
def isSpace (c : Char) : Bool :=
  let n := c.toNat
  (9 ≤ n && n ≤ 13) || n == 32 || n == 0x85 || n == 0xA0 || n == 0x1680 ||
    (0x2000 ≤ n && n ≤ 0x200A) || n == 0x2028 || n == 0x2029 || n == 0x202F ||
    n == 0x205F || n == 0x3000

/-- The scanning loop of Go `strings.FieldsFunc`: the second argument is the
field being read (`none` while `start < 0`, that is, between fields). -/
def FieldsAux : Str → Option Str → List Str
  | [], none => []
  | [], some cur => [cur]
  | c :: cs, none => if isSpace c then FieldsAux cs none else FieldsAux cs (some [c])
  | c :: cs, some cur =>
    if isSpace c then cur :: FieldsAux cs none else FieldsAux cs (some (cur ++ [c]))

/-- Go `strings.Fields`: split around runs of white space. -/
def Fields (s : Str) : List Str := FieldsAux s none

/-- The loop of Go `strings.Split` for a one-character separator: the second
argument is the piece being read. -/
def SplitAux (sep : Char) : Str → Str → List Str
  | [], cur => [cur]
  | c :: cs, cur => if c = sep then cur :: SplitAux sep cs [] else SplitAux sep cs (cur ++ [c])

/-- Go `strings.Split(s, sep)` for the one-character separators of the source. -/
def Split (s : Str) (sep : Char) : List Str := SplitAux sep s []

/-- Go `strings.Contains(s, sep)` for a one-character `sep`. -/
def Contains (s : Str) (sep : Char) : Bool := s.contains sep

/-- Go `strings.TrimSpace`: drop leading and trailing white space. -/
def TrimSpace (s : Str) : Str :=
  ((s.dropWhile isSpace).reverse.dropWhile isSpace).reverse

/-- The smallest value of Go's 64-bit `int`. -/
def minInt : Int := -(2 ^ 63)

/-- The largest value of Go's 64-bit `int`. -/
def maxInt : Int := 2 ^ 63 - 1

/-- The values of Go's `int`. -/
def inInt64 (x : Int) : Prop := minInt ≤ x ∧ x ≤ maxInt

instance (x : Int) : Decidable (inInt64 x) := by unfold inInt64; infer_instance

/-- Two's-complement wrap-around of an exact result into Go's `int`. -/
def wrap64 (x : Int) : Int := (x + 2 ^ 63) % 2 ^ 64 - 2 ^ 63

/-- Go `x - y` on `int`. -/
def goSub (x y : Int) : Int := wrap64 (x - y)

/-- Go `x % y` on `int`: truncated remainder; a zero divisor panics (`none`). -/
def goRem (x y : Int) : Option Int := if y = 0 then none else some (Int.tmod x y)

/-- The value of an ASCII decimal digit. -/
def digitVal (c : Char) : Option Nat :=
  if 48 ≤ c.toNat ∧ c.toNat ≤ 57 then some (c.toNat - 48) else none

/-- The digit loop of `strconv.Atoi`: `n = n*10 + digit`, failing on a
character that is no digit. -/
def parseDigits : Str → Nat → Option Nat
  | [], n => some n
  | c :: cs, n =>
    match digitVal c with
    | none => none
    | some d => parseDigits cs (n * 10 + d)

/-- The magnitude part of `strconv.Atoi`: at least one digit. -/
def parseMagnitude (s : Str) : Option Nat :=
  match s with
  | [] => none
  | _ :: _ => parseDigits s 0

/-- Go `strconv.Atoi`: an optional sign, then one or more decimal digits; the
value has to fit Go's `int`. `none` stands for a non-nil error. -/
def Atoi (s : Str) : Option Int :=
  match s with
  | [] => none
  | c :: rest =>
    let neg := c == '-'
    let body := if c == '-' || c == '+' then rest else s
    match parseMagnitude body with
    | none => none
    | some n =>
      let v : Int := if neg then -(n : Int) else (n : Int)
      if inInt64 v then some v else none

/-! ## The source -/

/-- The parsed cron expression (`type CronSchedule struct`). -/
structure CronSchedule where
  Minute : Str
  Hour : Str
  DayOfMonth : Str
  Month : Str
  DayOfWeek : Str
  deriving DecidableEq

/-- The error of `ParseCronSchedule`: "expected 5 fields, got n". -/
inductive ParseError where
  | wrongFieldCount (got : Nat)
  deriving DecidableEq

/-- Source `ParseCronSchedule`: split on white space, require exactly five fields. -/
def ParseCronSchedule (cronExpr : Str) : Except ParseError CronSchedule :=
  let fields := Fields cronExpr
  match fields with
  | [f0, f1, f2, f3, f4] =>
    Except.ok { Minute := f0, Hour := f1, DayOfMonth := f2, Month := f3, DayOfWeek := f4 }
  | _ => Except.error (ParseError.wrongFieldCount fields.length)

/-- The loop over the comma-separated values in `matchesCronField`: return
true at the first value that parses and equals `current`. -/
def matchesList : List Str → Int → Bool
  | [], _ => false
  | val :: rest, current =>
    match Atoi (TrimSpace val) with
    | some v => if v = current then true else matchesList rest current
    | none => matchesList rest current

/-- Source `matchesCronField`: does one cron field match the current value? `none`
is the run-time panic of an integer division by zero. The third argument is
the source's `max`, which the body never reads. -/
def matchesCronField (field : Str) (current _max : Int) : Option Bool :=
  if field = ['*'] then some true
  else if Contains field ',' then some (matchesList (Split field ',') current)
  else if Contains field '/' then
    match Split field '/' with
    | [rangeExpr, stepStr] =>
      match Atoi stepStr with
      | none => some false
      | some step =>
        if rangeExpr = ['*'] then (goRem current step).map (fun r => decide (r = 0))
        else if Contains rangeExpr '-' then
          match Split rangeExpr '-' with
          | [startStr, endStr] =>
            match Atoi startStr, Atoi endStr with
            | some start, some end_ =>
              if start ≤ current ∧ current ≤ end_ then
                (goRem (goSub current start) step).map (fun r => decide (r = 0))
              else some false
            | _, _ => some false
          | _ => some false
        else some false
    | _ => some false
  else if Contains field '-' then
    match Split field '-' with
    | [startStr, endStr] =>
      match Atoi startStr, Atoi endStr with
      | some start, some end_ => some (decide (start ≤ current ∧ current ≤ end_))
      | _, _ => some false
    | _ => some false
  else
    match Atoi field with
    | none => some false
    | some val => some (decide (val = current))

/-- The fields of a `time.Time` the source reads: `Minute()`, `Hour()`,
`Day()`, `Month()` and `Weekday()` (0 = Sunday). -/
structure TimePoint where
  Minute : Int
  Hour : Int
  Day : Int
  Month : Int
  Weekday : Int
  deriving DecidableEq

/-- Source `CronSchedule.MatchesToday`: day of month, month and day of week, where
Sunday is tried as 0 and then as 7. -/
def MatchesToday (cs : CronSchedule) (t : TimePoint) : Option Bool :=
  match matchesCronField cs.DayOfMonth t.Day 31 with
  | none => none
  | some false => some false
  | some true =>
    match matchesCronField cs.Month t.Month 12 with
    | none => none
    | some false => some false
    | some true =>
      let dow := t.Weekday
      match matchesCronField cs.DayOfWeek dow 7 with
      | none => none
      | some true => some true
      | some false =>
        if dow = 0 then
          match matchesCronField cs.DayOfWeek 7 7 with
          | none => none
          | some false => some false
          | some true => some true
        else some false

/-- Source `CronSchedule.MatchesTime`: minute, hour, then `MatchesToday`. -/
def MatchesTime (cs : CronSchedule) (t : TimePoint) : Option Bool :=
  match matchesCronField cs.Minute t.Minute 59 with
  | none => none
  | some false => some false
  | some true =>
    match matchesCronField cs.Hour t.Hour 23 with
    | none => none
    | some false => some false
    | some true => MatchesToday cs t

/-! ## The header scanner and the directory scan

`bufio.Scanner` is taken as a line source: the lines it yields and whether
`scanner.Err()` is non-nil once they are exhausted. The line counter is a
natural number: a file has fewer than 2^63 bytes, so Go's `lineNum` cannot
wrap. The warnings written to standard error are not modelled. -/

/-- Go `strings.HasPrefix`. -/
def HasPrefix (s pre : Str) : Bool := pre.isPrefixOf s

/-- Go `strings.HasSuffix`. -/
def HasSuffix (s suffix : Str) : Bool := suffix.isSuffixOf s

/-- Go `strings.TrimSuffix`: `s` without the suffix when it ends with it. -/
def TrimSuffix (s suffix : Str) : Str :=
  if HasSuffix s suffix then s.take (s.length - suffix.length) else s

/-- Go `strings.Trim(s, cutset)`: drop the leading and trailing code points
that occur in `cutset`. -/
def Trim (s cutset : Str) : Str :=
  ((s.dropWhile (fun c => cutset.contains c)).reverse.dropWhile
    (fun c => cutset.contains c)).reverse

/-- The loop of Go `strings.SplitN` for a one-character separator: `k` is the
number of cuts still allowed. -/
def SplitNAux (sep : Char) : Nat → Str → Str → List Str
  | 0, s, cur => [cur ++ s]
  | _ + 1, [], cur => [cur]
  | k + 1, c :: cs, cur =>
    if c = sep then cur :: SplitNAux sep k cs [] else SplitNAux sep (k + 1) cs (cur ++ [c])

/-- Go `strings.SplitN(s, sep, n)` for a one-character separator and `n ≥ 0`:
at most `n` pieces, the last one being the unsplit remainder. -/
def SplitN (s : Str) (sep : Char) (n : Nat) : List Str :=
  if n = 0 then [] else SplitNAux sep (n - 1) s []

/-- Go `unicode.ToLower`: the ASCII letters are mapped here, the code points
above 127 by the Unicode case table `table`. -/
def toLowerRune (table : Char → Char) (c : Char) : Char :=
  if c.toNat < 128 then c.toLower else table c

/-- Go `strings.ToLower`. -/
def ToLower (table : Char → Char) (s : Str) : Str := s.map (toLowerRune table)

/-- The scan of Go `filepath.Ext` from the end of the path: the first argument
is the reversed rest of the path, the second the characters already passed. -/
def ExtAux : Str → Str → Str
  | [], _ => []
  | c :: before, after =>
    if c = '/' then [] else if c = '.' then c :: after else ExtAux before (c :: after)

/-- Go `filepath.Ext` with the separator `/`: the suffix from the last dot of
the last path element, empty without a dot. -/
def Ext (path : Str) : Str := ExtAux path.reverse []

/-- Go `filepath.Base` with the separator `/`: the last element of the path,
after removing trailing separators. -/
def Base (path : Str) : Str :=
  if path = [] then ['.']
  else
    let stripped := (path.reverse.dropWhile (fun c => c == '/')).reverse
    let last := (stripped.reverse.takeWhile (fun c => c != '/')).reverse
    if last = [] then ['/'] else last

/-- An opened file as `bufio.Scanner` delivers it: the lines, and whether
`scanner.Err()` is non-nil after the last of them. -/
structure ScannedFile where
  lines : List Str
  scanErr : Bool
  deriving DecidableEq

/-- The three results of `ExtractFrontmatterData`; `err` is true for a
non-nil error. -/
structure FrontmatterData where
  schedule : Str
  title : Str
  err : Bool
  deriving DecidableEq

/-- The frontmatter delimiter line. -/
def delimiter : Str := ['-', '-', '-']

/-- The body shared by the two key tests of `ExtractFrontmatterData`: when the
trimmed line starts with `key`, the new value is the text after the first
colon, trimmed of white space and then of quote characters; otherwise the old
value stays. -/
def extractValue (trimmedLine key old : Str) : Str :=
  if HasPrefix trimmedLine key then
    match SplitN trimmedLine ':' 2 with
    | [_, value] => Trim (TrimSpace value) ['"', '\'']
    | _ => old
  else old

/-- The scanner loop of `ExtractFrontmatterData`, with its variables
`inFrontmatter`, `lineNum`, `schedule` and `title` as arguments. At the
closing delimiter the loop breaks and the scanner has met no error. -/
def scanLoop : List Str → Bool → Bool → Nat → Str → Str → FrontmatterData
  | [], scanErr, _, _, schedule, title =>
    if scanErr then ⟨[], [], true⟩ else ⟨schedule, title, false⟩
  | line :: rest, scanErr, inFrontmatter, lineNum, schedule, title =>
    let lineNum := lineNum + 1
    if line = delimiter ∧ !inFrontmatter ∧ lineNum = 1 then
      scanLoop rest scanErr true lineNum schedule title
    else if line = delimiter ∧ inFrontmatter then
      ⟨schedule, title, false⟩
    else if inFrontmatter then
      let trimmedLine := TrimSpace line
      let schedule := extractValue trimmedLine "review_schedule:".toList schedule
      let title := extractValue trimmedLine "title:".toList title
      scanLoop rest scanErr inFrontmatter lineNum schedule title
    else scanLoop rest scanErr inFrontmatter lineNum schedule title

/-- Source `ExtractFrontmatterData`: the argument is the outcome of opening
the named file, `none` when `os.Open` fails. -/
def ExtractFrontmatterData (file : Option ScannedFile) : FrontmatterData :=
  match file with
  | none => ⟨[], [], true⟩
  | some f => scanLoop f.lines f.scanErr false 0 [] []

/-- The record of a matching file (`type FileInfo struct`). -/
structure FileInfo where
  Path : Str
  Schedule : Str
  Title : Str
  deriving DecidableEq

/-- One call of the `filepath.Walk` callback: the path, whether the walk
passes an error, and whether the entry is a directory. -/
structure WalkEntry where
  path : Str
  walkErr : Bool
  isDir : Bool
  deriving DecidableEq

/-- The environment of a scan: the entries `filepath.Walk` visits from a
directory, in order; the outcome of opening a file; `filepath.Abs` and
`filepath.Rel`, which depend on the working directory (`none` is an error);
and the Unicode table for lower-casing code points above 127. -/
structure World where
  walk : Str → List WalkEntry
  openFile : Str → Option ScannedFile
  abs : Str → Option Str
  rel : Str → Str → Option Str
  lowerTable : Char → Char

/-- The callback that `ScanDirectory` passes to `filepath.Walk`, for one
entry: `none` is a panic, otherwise the matches so far (the source's `matches`) and whether the
callback returns an error. -/
def walkFn (w : World) (absDir : Str) (currentTime : TimePoint) (exactTime : Bool)
    (matched : List FileInfo) (e : WalkEntry) : Option (List FileInfo × Bool) :=
  if e.walkErr then some (matched, true)
  else if e.isDir then some (matched, false)
  else if !HasSuffix (ToLower w.lowerTable e.path) ".md".toList then some (matched, false)
  else
    let r := ExtractFrontmatterData (w.openFile e.path)
    if r.err then some (matched, false)
    else if r.schedule = [] then some (matched, false)
    else
      match ParseCronSchedule r.schedule with
      | Except.error _ => some (matched, false)
      | Except.ok cronSchedule =>
        let isMatch :=
          if exactTime then MatchesTime cronSchedule currentTime
          else MatchesToday cronSchedule currentTime
        match isMatch with
        | none => none
        | some false => some (matched, false)
        | some true =>
          let absPath := (w.abs e.path).getD []
          let relPath := (w.rel absDir absPath).getD e.path
          let title :=
            if r.title = [] then TrimSuffix (Base e.path) (Ext e.path) else r.title
          some (matched ++ [⟨relPath, r.schedule, title⟩], false)

/-- Go `filepath.Walk` over the visited entries: stop at the first callback
error. -/
def walkLoop (w : World) (absDir : Str) (currentTime : TimePoint) (exactTime : Bool) :
    List WalkEntry → List FileInfo → Option (List FileInfo × Bool)
  | [], matched => some (matched, false)
  | e :: es, matched =>
    match walkFn w absDir currentTime exactTime matched e with
    | none => none
    | some (matched, true) => some (matched, true)
    | some (matched, false) => walkLoop w absDir currentTime exactTime es matched

/-- Source `ScanDirectory`: the matches and whether the walk failed; `none`
is a panic. -/
def ScanDirectory (w : World) (dir : Str) (currentTime : TimePoint) (exactTime : Bool) :
    Option (List FileInfo × Bool) :=
  let absDir := (w.abs dir).getD dir
  walkLoop w absDir currentTime exactTime (w.walk dir) []

/-- The line `main` prints on standard output for one match. -/
def linkLine (m : FileInfo) : Str :=
  let pathWithoutExt := TrimSuffix m.Path ".md".toList
  "- [".toList ++ m.Title ++ "]([[".toList ++ pathWithoutExt ++ "]])".toList

/-- Source `main`, from the resolved directory on: the lines written to
standard output; a failed walk exits with nothing printed there, `none` is a
panic. -/
def main (w : World) (resolvedDir : Str) (currentTime : TimePoint) (exactTime : Bool) :
    Option (List Str) :=
  match ScanDirectory w resolvedDir currentTime exactTime with
  | none => none
  | some (_, true) => some []
  | some (matched, false) => some (matched.map linkLine)

/-! ## Notions the specification uses -/

/-- The white-space-separated tokens of a string, declaratively: cut at every
white-space character and keep the non-empty pieces. -/
def tokens (s : Str) : List Str := (s.splitOnP isSpace).filter (fun t => !t.isEmpty)

/-- An ASCII decimal digit. -/
def isDigit (c : Char) : Prop := 48 ≤ c.toNat ∧ c.toNat ≤ 57

/-- The decimal numeral of a natural number. -/
def decimal (n : Nat) : Str := Nat.toDigits 10 n

/-- The decimal numeral of an integer: a minus sign before a negative one. -/
def decimalInt (z : Int) : Str :=
  if z < 0 then '-' :: decimal z.natAbs else decimal z.natAbs

/-- The range field `a-b`. -/
def rangeField (a b : Int) : Str := decimalInt a ++ '-' :: decimalInt b

/-- The step field `*/N`. -/
def starStepField (N : Nat) : Str := '*' :: '/' :: decimal N

/-- The stepped range field `start-end/N`. -/
def rangeStepField (start end_ N : Nat) : Str :=
  decimal start ++ '-' :: (decimal end_ ++ '/' :: decimal N)

/-- A token: a non-empty string without white space. -/
def isToken (f : Str) : Prop := f ≠ [] ∧ ∀ c ∈ f, isSpace c = false

instance (f : Str) : Decidable (isToken f) := by unfold isToken; infer_instance

/-- The expression made of five fields separated by single spaces. -/
def joinFields (f0 f1 f2 f3 f4 : Str) : Str :=
  f0 ++ ' ' :: (f1 ++ ' ' :: (f2 ++ ' ' :: (f3 ++ ' ' :: f4)))

/-! ## Notions the specification uses: headers and scans -/

/-- Neither white space nor a quote character. -/
def plainChar (c : Char) : Bool := !isSpace c && c != '"' && c != '\''

/-- A value that does not begin or end with white space or with a single or
double quote character. -/
def cleanEnds (v : Str) : Prop := v.head?.all plainChar = true ∧ v.getLast?.all plainChar = true

instance (v : Str) : Decidable (cleanEnds v) := by unfold cleanEnds; infer_instance

/-- A key of the header: some colon-free name followed by a colon. -/
def isKey (key : Str) : Prop := ∃ k, ':' ∉ k ∧ key = k ++ [':']

/-- The update of one header variable over a run of header lines. -/
def headerFold (key : Str) (header : List Str) (old : Str) : Str :=
  header.foldl (fun acc l => extractValue (TrimSpace l) key acc) old

/-- The value a header gives to a key: that of the last line which, trimmed of
white space, starts with the key, namely the text after the key trimmed of
white space and then of quotes; empty when no line starts with the key. -/
def headerValue (key : Str) (header : List Str) : Str :=
  match ((header.map TrimSpace).filter (fun l => HasPrefix l key)).getLast? with
  | none => []
  | some l => Trim (TrimSpace (l.drop key.length)) ['"', '\'']

/-- The three ways of writing the value `v` under a key: bare, in double
quotes and in single quotes, after the key and one space. -/
def valueLines (key v : Str) : List Str :=
  [key ++ ' ' :: v, key ++ ' ' :: ('"' :: (v ++ ['"'])), key ++ ' ' :: ('\'' :: (v ++ ['\'']))]

/-- The lines of `post` before its first delimiter. -/
def untilDelimiter (post : List Str) : List Str :=
  post.takeWhile (fun l => decide (l ≠ delimiter))

/-- A `start-end` range: two dash-separated parts that both parse as integers. -/
def isRangeExpr (r : Str) : Bool :=
  match Split r '-' with
  | [a, b] => (Atoi a).isSome && (Atoi b).isSome
  | _ => false

/-- The record `ScanDirectory` appends for a matching entry: the path relative
to the scanned directory, the extracted schedule, and the extracted title or,
when that is empty, the base file name without its extension. -/
def recordOf (w : World) (absDir : Str) (e : WalkEntry) : FileInfo :=
  let r := ExtractFrontmatterData (w.openFile e.path)
  ⟨(w.rel absDir ((w.abs e.path).getD [])).getD e.path, r.schedule,
    if r.title = [] then TrimSuffix (Base e.path) (Ext e.path) else r.title⟩

/-- A matching document: a file with the document extension whose header
yields a non-empty schedule that parses and matches the time point under the
selected mode. -/
def isMatchingEntry (w : World) (currentTime : TimePoint) (exactTime : Bool) (e : WalkEntry) :
    Bool :=
  let r := ExtractFrontmatterData (w.openFile e.path)
  !e.walkErr && !e.isDir && HasSuffix (ToLower w.lowerTable e.path) ".md".toList &&
    !r.err && decide (r.schedule ≠ []) &&
    match ParseCronSchedule r.schedule with
    | Except.ok cs =>
      decide ((if exactTime then MatchesTime cs currentTime else MatchesToday cs currentTime)
        = some true)
    | Except.error _ => false

/-- The entries the walk reaches: those before the first one that the walk
passes with an error, at which the callback stops the walk. -/
def visitedEntries (es : List WalkEntry) : List WalkEntry :=
  es.takeWhile (fun e => !e.walkErr)

/-- A sample vault `/vault`, scanned as `.`: an upper-case `NOTE.MD` with a
schedule and a title, `empty.md` without a header, a directory `sub` with
`sub/note.md` that has a schedule and no title, and `readme.txt`. -/
def sampleWorld : World :=
  World.mk
    (fun _ => [⟨".".toList, false, true⟩, ⟨"NOTE.MD".toList, false, false⟩,
      ⟨"empty.md".toList, false, false⟩, ⟨"readme.txt".toList, false, false⟩,
      ⟨"sub".toList, false, true⟩, ⟨"sub/note.md".toList, false, false⟩])
    (fun p =>
      if p = "NOTE.MD".toList then
        some ⟨[delimiter, "review_schedule: \"* * * * *\"".toList, "title: T".toList, delimiter],
          false⟩
      else if p = "sub/note.md".toList then
        some ⟨[delimiter, "review_schedule: 0 9 * * *".toList, delimiter, "text".toList], false⟩
      else if p = "empty.md".toList then some ⟨["# Empty".toList], false⟩
      else none)
    (fun p => if p = ".".toList then some "/vault".toList else some ("/vault/".toList ++ p))
    (fun base target => some (target.drop (base.length + 1)))
    id

/-- A vault that holds only `NOTE.MD`, with schedule `* * * * *` and title `T`. -/
def upperCaseWorld : World :=
  World.mk
    (fun _ => [⟨".".toList, false, true⟩, ⟨"NOTE.MD".toList, false, false⟩])
    (fun _ => some ⟨[delimiter, "review_schedule: * * * * *".toList, "title: T".toList,
      delimiter], false⟩)
    (fun p => if p = ".".toList then some "/vault".toList else some ("/vault/".toList ++ p))
    (fun base target => some (target.drop (base.length + 1)))
    id

/-! ## The standard library functions: basic facts -/

theorem FieldsAux_some (s : Str) : ∀ cur : Str, cur ≠ [] →
    FieldsAux s (some cur) =
      (cur ++ (s.splitOnP isSpace).headD []) :: ((s.splitOnP isSpace).tail).filter (fun t => !t.isEmpty) ∧
    FieldsAux s none = (s.splitOnP isSpace).filter (fun t => !t.isEmpty) := by
  induction s with
  | nil => intro cur _; simp [FieldsAux, List.splitOnP_nil]
  | cons c cs ih =>
    intro cur hcur
    have hne : cs.splitOnP isSpace ≠ [] := List.splitOnP_ne_nil _ _
    obtain ⟨hd, tl, hsp⟩ := List.exists_cons_of_ne_nil hne
    have h1 := (ih [c] (by simp)).1
    have h2 := (ih (cur ++ [c]) (by simp)).1
    have h3 := (ih [c] (by simp)).2
    rw [hsp] at h1 h2 h3
    by_cases hc : isSpace c = true
    · simp [FieldsAux, List.splitOnP_cons, hc, h3, hsp]
    · simp [FieldsAux, List.splitOnP_cons, hc, h1, h2, hsp, List.modifyHead]

theorem SplitAux_eq (sep : Char) (s : Str) : ∀ cur : Str,
    SplitAux sep s cur = (s.splitOn sep).modifyHead (fun t => cur ++ t) := by
  induction s with
  | nil => intro cur; simp [SplitAux, List.splitOn, List.splitOnP_nil, List.modifyHead]
  | cons c cs ih =>
    intro cur
    obtain ⟨hd, tl, hsp⟩ := List.exists_cons_of_ne_nil (List.splitOnP_ne_nil (fun x => x == sep) cs)
    by_cases hc : c = sep
    · simp [SplitAux, List.splitOn, List.splitOnP_cons, hc, ih, hsp, List.modifyHead]
    · simp [SplitAux, List.splitOn, List.splitOnP_cons, hc, ih, hsp, List.modifyHead]

theorem Split_eq_splitOn (s : Str) (sep : Char) : Split s sep = s.splitOn sep := by
  unfold Split
  rw [SplitAux_eq]
  obtain ⟨hd, tl, hsp⟩ := List.exists_cons_of_ne_nil (List.splitOnP_ne_nil (fun x => x == sep) s)
  simp [List.splitOn, hsp, List.modifyHead]

theorem SplitAux_not_mem (sep : Char) (s : Str) (h : sep ∉ s) :
    ∀ cur, SplitAux sep s cur = [cur ++ s] := by
  induction s with
  | nil => intro cur; simp [SplitAux]
  | cons c cs ih =>
    intro cur
    have hc : c ≠ sep := fun e => h (by simp [e])
    have hcs : sep ∉ cs := fun e => h (by simp [e])
    simp [SplitAux, hc, ih hcs]

theorem SplitAux_append (sep : Char) (a : Str) (h : sep ∉ a) (rest : Str) :
    ∀ cur, SplitAux sep (a ++ sep :: rest) cur = (cur ++ a) :: SplitAux sep rest [] := by
  induction a with
  | nil => intro cur; simp [SplitAux]
  | cons c cs ih =>
    intro cur
    have hc : c ≠ sep := fun e => h (by simp [e])
    have hcs : sep ∉ cs := fun e => h (by simp [e])
    simp [SplitAux, hc, ih hcs]

theorem Split_pair (sep : Char) (a b : Str) (ha : sep ∉ a) (hb : sep ∉ b) :
    Split (a ++ sep :: b) sep = [a, b] := by
  unfold Split
  rw [SplitAux_append sep a ha, SplitAux_not_mem sep b hb]
  simp

theorem Contains_iff (s : Str) (sep : Char) : Contains s sep = true ↔ sep ∈ s := by
  simp [Contains]

theorem digitChar_isDigit (m : Nat) (hm : m < 10) :
    isDigit (Nat.digitChar m) ∧ digitVal (Nat.digitChar m) = some m := by
  unfold isDigit
  interval_cases m <;> decide

theorem parseDigits_append (ds es : Str) : ∀ n,
    parseDigits (ds ++ es) n = (parseDigits ds n).bind (parseDigits es) := by
  induction ds with
  | nil => intro n; simp [parseDigits]
  | cons c cs ih =>
    intro n
    cases hd : digitVal c with
    | none => simp [parseDigits, hd]
    | some d => simp [parseDigits, hd, ih]

theorem toDigitsCore_spec (fuel : Nat) : ∀ (n : Nat) (acc : Str), n < fuel →
    ∃ ds : Str, Nat.toDigitsCore 10 fuel n acc = ds ++ acc ∧ ds ≠ [] ∧
      (∀ c ∈ ds, isDigit c) ∧ parseDigits ds 0 = some n := by
  induction fuel with
  | zero => intro n acc h; omega
  | succ fuel ih =>
    intro n acc hn
    obtain ⟨hdig, hval⟩ := digitChar_isDigit (n % 10) (Nat.mod_lt _ (by decide))
    by_cases hq : n / 10 = 0
    · refine ⟨[Nat.digitChar (n % 10)], ?_, by simp, ?_, ?_⟩
      · simp [Nat.toDigitsCore, hq]
      · intro c hc; simp at hc; subst hc; exact hdig
      · have hn10 : n % 10 = n := by omega
        rw [hn10] at hval ⊢
        simp [parseDigits, hval]
    · obtain ⟨ds, hds, -, hall, hp⟩ := ih (n / 10) (Nat.digitChar (n % 10) :: acc) (by omega)
      refine ⟨ds ++ [Nat.digitChar (n % 10)], ?_, by simp, ?_, ?_⟩
      · simp [Nat.toDigitsCore, hq, hds]
      · intro c hc
        rcases List.mem_append.mp hc with h | h
        · exact hall c h
        · simp at h; subst h; exact hdig
      · rw [parseDigits_append, hp]
        simp [parseDigits, hval]
        omega

theorem decimal_spec (n : Nat) :
    decimal n ≠ [] ∧ (∀ c ∈ decimal n, isDigit c) ∧ parseDigits (decimal n) 0 = some n := by
  obtain ⟨ds, hds, hne, hall, hp⟩ := toDigitsCore_spec (n + 1) n [] (by omega)
  have : decimal n = ds := by simp [decimal, Nat.toDigits, hds]
  rw [this]; exact ⟨hne, hall, hp⟩

theorem isDigit_ne (c : Char) (h : isDigit c) :
    c ≠ '-' ∧ c ≠ '+' ∧ c ≠ ',' ∧ c ≠ '/' ∧ c ≠ '*' ∧ isSpace c = false := by
  unfold isDigit at h
  refine ⟨?_, ?_, ?_, ?_, ?_, ?_⟩
  · rintro rfl; revert h; decide
  · rintro rfl; revert h; decide
  · rintro rfl; revert h; decide
  · rintro rfl; revert h; decide
  · rintro rfl; revert h; decide
  · simp only [isSpace]
    simp only [Bool.or_eq_false_iff, Bool.and_eq_false_iff, decide_eq_false_iff_not, beq_eq_false_iff_ne]
    omega

theorem decimal_not_mem (n : Nat) :
    '-' ∉ decimal n ∧ ',' ∉ decimal n ∧ '/' ∉ decimal n ∧ '*' ∉ decimal n := by
  have h := (decimal_spec n).2.1
  refine ⟨?_, ?_, ?_, ?_⟩ <;> intro hm
  · exact (isDigit_ne _ (h _ hm)).1 rfl
  · exact (isDigit_ne _ (h _ hm)).2.2.1 rfl
  · exact (isDigit_ne _ (h _ hm)).2.2.2.1 rfl
  · exact (isDigit_ne _ (h _ hm)).2.2.2.2.1 rfl

theorem Atoi_decimal (n : Nat) :
    Atoi (decimal n) = if (n : Int) ≤ maxInt then some (n : Int) else none := by
  obtain ⟨hne, hall, hp⟩ := decimal_spec n
  obtain ⟨c, rest, hs⟩ := List.exists_cons_of_ne_nil hne
  rw [hs] at hall hp ⊢
  obtain ⟨h1, h2, -⟩ := isDigit_ne c (hall c (by simp))
  have hmin : minInt ≤ (n : Int) := by unfold minInt; omega
  simp [Atoi, h1, h2, parseMagnitude, hp, inInt64, hmin]

theorem Atoi_decimal_of_le (n : Nat) (h : (n : Int) ≤ maxInt) :
    Atoi (decimal n) = some (n : Int) := by
  rw [Atoi_decimal, if_pos h]

/-! ## Integer arithmetic and the field forms -/

theorem decide_tmod_eq_zero (x y : Int) : decide (Int.tmod x y = 0) = decide (x % y = 0) := by
  have : Int.tmod x y = 0 ↔ x % y = 0 :=
    ⟨fun h => Int.emod_eq_zero_of_dvd (Int.dvd_of_tmod_eq_zero h),
     fun h => Int.tmod_eq_zero_of_dvd (Int.dvd_of_emod_eq_zero h)⟩
  simp [this]

theorem goSub_of_le (current start : Int) (h0 : 0 ≤ start) (h1 : start ≤ current)
    (h2 : current ≤ maxInt) : goSub current start = current - start := by
  unfold maxInt at h2
  unfold goSub wrap64
  omega

theorem decimalInt_natCast (n : Nat) : decimalInt (n : Int) = decimal n := by
  have : ¬ ((n : Int) < 0) := by omega
  simp [decimalInt, this]

theorem decimal_ne_star (n : Nat) : decimal n ≠ ['*'] := by
  intro h
  have := (decimal_not_mem n).2.2.2
  rw [h] at this
  simp at this

theorem matchesCronField_starStep (N : Nat) (hN : (N : Int) ≤ maxInt) (current max : Int) :
    matchesCronField (starStepField N) current max =
      if N = 0 then none else some (decide (current % (N : Int) = 0)) := by
  obtain ⟨-, hc, hs, -⟩ := decimal_not_mem N
  have h1 : starStepField N ≠ ['*'] := by simp [starStepField]
  have h2 : Contains (starStepField N) ',' = false := by
    simp [Contains, starStepField, hc]
  have h3 : Contains (starStepField N) '/' = true := by
    simp [Contains, starStepField]
  have h4 : Split (starStepField N) '/' = [['*'], decimal N] :=
    Split_pair '/' ['*'] (decimal N) (by simp) hs
  unfold matchesCronField
  rw [if_neg h1, h2, h3, h4]
  simp only [Atoi_decimal_of_le N hN, goRem]
  by_cases h0 : N = 0
  · simp [h0]
  · have : (N : Int) ≠ 0 := by omega
    simp [h0, this, decide_tmod_eq_zero]

theorem matchesCronField_range (a b : Nat) (current max : Int) :
    matchesCronField (decimal a ++ '-' :: decimal b) current max =
      if (a : Int) ≤ maxInt ∧ (b : Int) ≤ maxInt then
        some (decide ((a : Int) ≤ current ∧ current ≤ (b : Int)))
      else some false := by
  obtain ⟨ham, hac, has, hat⟩ := decimal_not_mem a
  obtain ⟨hbm, hbc, hbs, hbt⟩ := decimal_not_mem b
  have h1 : decimal a ++ '-' :: decimal b ≠ ['*'] := by
    intro h
    have : '-' ∈ decimal a ++ '-' :: decimal b := by simp
    rw [h] at this; simp at this
  have h2 : Contains (decimal a ++ '-' :: decimal b) ',' = false := by
    simp [Contains, hac, hbc]
  have h3 : Contains (decimal a ++ '-' :: decimal b) '/' = false := by
    simp [Contains, has, hbs]
  have h4 : Contains (decimal a ++ '-' :: decimal b) '-' = true := by
    simp [Contains]
  have h5 := Split_pair '-' (decimal a) (decimal b) ham hbm
  unfold matchesCronField
  rw [if_neg h1, h2, h3, h4, h5]
  simp only [Atoi_decimal]
  by_cases ha : (a : Int) ≤ maxInt <;> by_cases hb : (b : Int) ≤ maxInt <;> simp [ha, hb]

theorem matchesCronField_rangeStep (start end_ N : Nat) (hs : (start : Int) ≤ maxInt)
    (he : (end_ : Int) ≤ maxInt) (hN : (N : Int) ≤ maxInt) (current max : Int)
    (hc : current ≤ maxInt) :
    matchesCronField (rangeStepField start end_ N) current max =
      if (start : Int) ≤ current ∧ current ≤ (end_ : Int) then
        (if N = 0 then none else some (decide ((current - (start : Int)) % (N : Int) = 0)))
      else some false := by
  obtain ⟨ham, hac, has, hat⟩ := decimal_not_mem start
  obtain ⟨hbm, hbc, hbs, hbt⟩ := decimal_not_mem end_
  obtain ⟨hnm, hnc, hns, hnt⟩ := decimal_not_mem N
  have h1 : rangeStepField start end_ N ≠ ['*'] := by
    intro h
    have : '-' ∈ rangeStepField start end_ N := by simp [rangeStepField]
    rw [h] at this; simp at this
  have h2 : Contains (rangeStepField start end_ N) ',' = false := by
    simp [Contains, rangeStepField, hac, hbc, hnc]
  have h3 : Contains (rangeStepField start end_ N) '/' = true := by
    simp [Contains, rangeStepField]
  have h4 : Split (rangeStepField start end_ N) '/' = [decimal start ++ '-' :: decimal end_, decimal N] := by
    have := Split_pair '/' (decimal start ++ '-' :: decimal end_) (decimal N)
      (by simp [has, hbs]) hns
    simpa [rangeStepField] using this
  have h5 : decimal start ++ '-' :: decimal end_ ≠ ['*'] := by
    intro h
    have : '-' ∈ decimal start ++ '-' :: decimal end_ := by simp
    rw [h] at this; simp at this
  have h6 : Contains (decimal start ++ '-' :: decimal end_) '-' = true := by
    simp [Contains]
  have h7 := Split_pair '-' (decimal start) (decimal end_) ham hbm
  unfold matchesCronField
  rw [if_neg h1, h2, h3, h4]
  simp only [Atoi_decimal_of_le N hN, if_neg h5, h6, h7, Atoi_decimal_of_le start hs,
    Atoi_decimal_of_le end_ he]
  by_cases hr : (start : Int) ≤ current ∧ current ≤ (end_ : Int)
  · rw [if_pos hr, if_pos hr, goSub_of_le current start (by omega) hr.1 hc]
    by_cases h0 : N = 0
    · simp [h0, goRem]
    · have : (N : Int) ≠ 0 := by omega
      simp [h0, this, goRem, decide_tmod_eq_zero]
  · simp [hr]

theorem matchesCronField_literal (n : Nat) (current max : Int) (hc : current ≤ maxInt) :
    matchesCronField (decimal n) current max = some (decide ((n : Int) = current)) := by
  obtain ⟨ham, hac, has, hat⟩ := decimal_not_mem n
  have h2 : Contains (decimal n) ',' = false := by simp [Contains, hac]
  have h3 : Contains (decimal n) '/' = false := by simp [Contains, has]
  have h4 : Contains (decimal n) '-' = false := by simp [Contains, ham]
  unfold matchesCronField
  rw [if_neg (decimal_ne_star n), h2, h3, h4]
  simp only [Atoi_decimal]
  by_cases hn : (n : Int) ≤ maxInt
  · simp [hn]
  · have : (n : Int) ≠ current := by omega
    simp [hn, this]

theorem Fields_eq_tokens (s : Str) : Fields s = tokens s :=
  (FieldsAux_some s ['x'] (by simp)).2

theorem goRem_eq_none (x y : Int) : goRem x y = none ↔ y = 0 := by
  unfold goRem; split <;> simp_all

/-- A field on which `matchesCronField` panics for one value is true for no value. -/
theorem matchesCronField_none_not_true (field : Str) (c m c' m' : Int)
    (h : matchesCronField field c m = none) : matchesCronField field c' m' ≠ some true := by
  unfold matchesCronField at h ⊢
  by_cases h1 : field = ['*']
  · simp [h1] at h
  by_cases h2 : Contains field ',' = true
  · simp [h1, h2] at h
  rw [Bool.not_eq_true] at h2
  by_cases h3 : Contains field '/' = true
  · simp only [if_neg h1, h2, h3, if_true, Bool.false_eq_true, if_false] at h ⊢
    rcases hS : Split field '/' with _ | ⟨r, _ | ⟨s, _ | ⟨x, l⟩⟩⟩
    · simp [hS] at h
    · simp [hS] at h
    · simp only [hS] at h ⊢
      cases hA : Atoi s with
      | none => simp [hA] at h
      | some step =>
        simp only [hA] at h ⊢
        by_cases h4 : r = ['*']
        · simp only [if_pos h4, Option.map_eq_none', goRem_eq_none] at h ⊢
          subst h; simp [goRem]
        · simp only [if_neg h4] at h ⊢
          by_cases h5 : Contains r '-' = true
          · simp only [h5, if_true] at h ⊢
            rcases hR : Split r '-' with _ | ⟨a, _ | ⟨b, _ | ⟨y, l'⟩⟩⟩
            · simp [hR] at h
            · simp [hR] at h
            · simp only [hR] at h ⊢
              cases hAa : Atoi a with
              | none => simp [hAa] at h
              | some start =>
                cases hAb : Atoi b with
                | none => simp [hAa, hAb] at h
                | some end_ =>
                  simp only [hAa, hAb] at h ⊢
                  by_cases hr : start ≤ c ∧ c ≤ end_
                  · simp only [if_pos hr, Option.map_eq_none', goRem_eq_none] at h
                    subst h
                    by_cases hr' : start ≤ c' ∧ c' ≤ end_
                    · simp [hr', goRem]
                    · simp [hr']
                  · simp [hr] at h
            · simp [hR] at h
          · simp [h5] at h
    · simp [hS] at h
  rw [Bool.not_eq_true] at h3
  by_cases h4 : Contains field '-' = true
  · simp only [if_neg h1, h2, h3, h4, if_true, Bool.false_eq_true, if_false] at h
    rcases hS : Split field '-' with _ | ⟨a, _ | ⟨b, _ | ⟨y, l'⟩⟩⟩ <;> simp only [hS] at h <;> try simp at h
    cases hAa : Atoi a <;> cases hAb : Atoi b <;> simp [hAa, hAb] at h
  · rw [Bool.not_eq_true] at h4
    simp only [if_neg h1, h2, h3, h4, Bool.false_eq_true, if_false] at h
    cases hA : Atoi field <;> simp [hA] at h

/-! ## Tokens and lists -/

theorem FieldsAux_token_some (a : Str) (ha : ∀ c ∈ a, isSpace c = false) (rest : Str) :
    ∀ cur, FieldsAux (a ++ rest) (some cur) = FieldsAux rest (some (cur ++ a)) := by
  induction a with
  | nil => intro cur; simp
  | cons c cs ih =>
    intro cur
    have hc : isSpace c = false := ha c (by simp)
    have hcs : ∀ x ∈ cs, isSpace x = false := fun x hx => ha x (by simp [hx])
    simp [FieldsAux, hc, ih hcs]

theorem FieldsAux_token_none (a : Str) (ha : isToken a) (rest : Str) :
    FieldsAux (a ++ rest) none = FieldsAux rest (some a) := by
  obtain ⟨hne, hall⟩ := ha
  obtain ⟨c, cs, rfl⟩ := List.exists_cons_of_ne_nil hne
  have hc : isSpace c = false := hall c (by simp)
  have hcs : ∀ x ∈ cs, isSpace x = false := fun x hx => hall x (by simp [hx])
  simp [FieldsAux, hc, FieldsAux_token_some cs hcs]

theorem FieldsAux_token_space (a : Str) (ha : isToken a) (rest : Str) :
    FieldsAux (a ++ ' ' :: rest) none = a :: FieldsAux rest none := by
  have hsp : isSpace ' ' = true := by decide
  rw [FieldsAux_token_none a ha]
  simp [FieldsAux, hsp]

theorem Fields_joinFields (f0 f1 f2 f3 f4 : Str) (h0 : isToken f0) (h1 : isToken f1)
    (h2 : isToken f2) (h3 : isToken f3) (h4 : isToken f4) :
    Fields (joinFields f0 f1 f2 f3 f4) = [f0, f1, f2, f3, f4] := by
  unfold Fields joinFields
  rw [FieldsAux_token_space f0 h0, FieldsAux_token_space f1 h1, FieldsAux_token_space f2 h2,
    FieldsAux_token_space f3 h3]
  have := FieldsAux_token_none f4 h4 []
  simp only [List.append_nil] at this
  rw [this]
  simp [FieldsAux]

theorem decimal_isToken (n : Nat) : isToken (decimal n) :=
  ⟨(decimal_spec n).1, fun c hc => (isDigit_ne c ((decimal_spec n).2.1 c hc)).2.2.2.2.2⟩

theorem matchesList_eq_true_iff (l : List Str) (current : Int) :
    matchesList l current = true ↔ ∃ e ∈ l, Atoi (TrimSpace e) = some current := by
  induction l with
  | nil => simp [matchesList]
  | cons val rest ih =>
    unfold matchesList
    cases hA : Atoi (TrimSpace val) with
    | none => simp [hA, ih]
    | some v =>
      by_cases hv : v = current
      · simp [hA, hv]
      · simp [hA, hv, ih]

/-! ## The claims -/

/-- C1: `ParseCronSchedule` returns an error exactly when the number of
white-space-separated tokens of the input differs from 5, and on success the
fields Minute, Hour, DayOfMonth, Month, DayOfWeek are the first to fifth token,
in that order and unmodified. -/
theorem ParseCronSchedule_five_tokens (s : Str) :
    ((∃ e, ParseCronSchedule s = Except.error e) ↔ (tokens s).length ≠ 5) ∧
    (∀ cs, ParseCronSchedule s = Except.ok cs →
      tokens s = [cs.Minute, cs.Hour, cs.DayOfMonth, cs.Month, cs.DayOfWeek]) := by
  rw [← Fields_eq_tokens]
  unfold ParseCronSchedule
  rcases Fields s with _ | ⟨f0, _ | ⟨f1, _ | ⟨f2, _ | ⟨f3, _ | ⟨f4, _ | ⟨f5, l⟩⟩⟩⟩⟩⟩
  all_goals simp

theorem ParseCronSchedule_five_tokens_witness :
    ((∃ e, ParseCronSchedule "0 9 * *".toList = Except.error e) ↔
        (tokens "0 9 * *".toList).length ≠ 5) ∧
      (tokens "0 9 * *".toList).length = 4 ∧
      ParseCronSchedule " 0  9 * *   1-5 ".toList =
        Except.ok ⟨"0".toList, "9".toList, "*".toList, "*".toList, "1-5".toList⟩ ∧
      tokens " 0  9 * *   1-5 ".toList =
        ["0".toList, "9".toList, "*".toList, "*".toList, "1-5".toList] :=
  ⟨(ParseCronSchedule_five_tokens "0 9 * *".toList).1, by decide, rfl,
    (ParseCronSchedule_five_tokens " 0  9 * *   1-5 ".toList).2 _ rfl⟩

/-- C2: the claim that `matchesCronField` never faults fails on the code: on
the step field `*/0` the remainder `current % step` divides by zero for every
current value, and so does `10-20/0` for a current value inside the range. -/
theorem matchesCronField_zero_step_panics :
    (∀ current max : Int, matchesCronField "*/0".toList current max = none) ∧
    matchesCronField "*/0".toList 5 59 = none ∧
    matchesCronField "10-20/0".toList 15 59 = none := by
  refine ⟨fun current max => ?_, by decide, by decide⟩
  have h := matchesCronField_starStep 0 (by decide) current max
  simpa using h

/-- C3: `MatchesToday` returns true exactly when the day-of-month field
matches the day, the month field matches the month, and the day-of-week field
matches the weekday or the weekday is Sunday (0) and the field matches 7. -/
theorem MatchesToday_true_iff (cs : CronSchedule) (t : TimePoint) :
    MatchesToday cs t = some true ↔
      matchesCronField cs.DayOfMonth t.Day 31 = some true ∧
      matchesCronField cs.Month t.Month 12 = some true ∧
      (matchesCronField cs.DayOfWeek t.Weekday 7 = some true ∨
        (t.Weekday = 0 ∧ matchesCronField cs.DayOfWeek 7 7 = some true)) := by
  unfold MatchesToday
  rcases hd : matchesCronField cs.DayOfMonth t.Day 31 with _ | _ | _ <;> simp
  rcases hm : matchesCronField cs.Month t.Month 12 with _ | _ | _ <;> simp
  rcases hw : matchesCronField cs.DayOfWeek t.Weekday 7 with _ | _ | _ <;> simp
  · intro _
    exact matchesCronField_none_not_true _ _ _ _ _ hw
  · by_cases h0 : t.Weekday = 0
    · rcases h7 : matchesCronField cs.DayOfWeek 7 7 with _ | _ | _ <;> simp [h0]
    · simp [h0]

/-- C4: `MatchesTime` returns true exactly when the minute field matches the
minute, the hour field matches the hour and `MatchesToday` is true for the same
time point; so `MatchesTime` true implies `MatchesToday` true, and the schedule
`0 9 * * *` matches 09:00 but neither 09:30 nor 10:00 of any day. -/
theorem MatchesTime_true_iff (cs : CronSchedule) (t : TimePoint) :
    (MatchesTime cs t = some true ↔
      matchesCronField cs.Minute t.Minute 59 = some true ∧
      matchesCronField cs.Hour t.Hour 23 = some true ∧
      MatchesToday cs t = some true) ∧
    (MatchesTime cs t = some true → MatchesToday cs t = some true) ∧
    (∃ daily, ParseCronSchedule "0 9 * * *".toList = Except.ok daily ∧
      ∀ d m w : Int,
        MatchesTime daily ⟨0, 9, d, m, w⟩ = some true ∧
        MatchesTime daily ⟨30, 9, d, m, w⟩ = some false ∧
        MatchesTime daily ⟨0, 10, d, m, w⟩ = some false) := by
  have key : MatchesTime cs t = some true ↔
      matchesCronField cs.Minute t.Minute 59 = some true ∧
      matchesCronField cs.Hour t.Hour 23 = some true ∧
      MatchesToday cs t = some true := by
    unfold MatchesTime
    rcases hd : matchesCronField cs.Minute t.Minute 59 with _ | _ | _ <;> simp
    rcases hm : matchesCronField cs.Hour t.Hour 23 with _ | _ | _ <;> simp
  refine ⟨key, fun h => (key.mp h).2.2, ⟨_, rfl, fun d m w => ?_⟩⟩
  have h00 : matchesCronField ['0'] 0 59 = some true := by decide
  have h30 : matchesCronField ['0'] 30 59 = some false := by decide
  have h9 : matchesCronField ['9'] 9 23 = some true := by decide
  have h10 : matchesCronField ['9'] 10 23 = some false := by decide
  have hstar : ∀ c mx : Int, matchesCronField ['*'] c mx = some true := by
    intro c mx; simp [matchesCronField]
  simp [MatchesTime, MatchesToday, h00, h30, h9, h10, hstar]

theorem MatchesTime_true_iff_witness :
    MatchesTime ⟨"0".toList, "9".toList, "15".toList, "*".toList, "1-5".toList⟩
        ⟨0, 9, 15, 1, 4⟩ = some true ∧
      MatchesToday ⟨"0".toList, "9".toList, "15".toList, "*".toList, "1-5".toList⟩
        ⟨0, 9, 15, 1, 4⟩ = some true :=
  ⟨by decide,
    (MatchesTime_true_iff ⟨"0".toList, "9".toList, "15".toList, "*".toList, "1-5".toList⟩
      ⟨0, 9, 15, 1, 4⟩).2.1 (by decide)⟩

/-- C5: on a Sunday, for a schedule whose day-of-month and month fields match,
`MatchesToday` is true with day-of-week field `0`, true with `7`, and false
with `1`. -/
theorem MatchesToday_sunday (cs : CronSchedule) (t : TimePoint) (hsun : t.Weekday = 0)
    (hd : matchesCronField cs.DayOfMonth t.Day 31 = some true)
    (hm : matchesCronField cs.Month t.Month 12 = some true) :
    MatchesToday { cs with DayOfWeek := "0".toList } t = some true ∧
    MatchesToday { cs with DayOfWeek := "7".toList } t = some true ∧
    MatchesToday { cs with DayOfWeek := "1".toList } t = some false := by
  have a0 : matchesCronField ['0'] 0 7 = some true := by decide
  have a7 : matchesCronField ['7'] 0 7 = some false := by decide
  have b7 : matchesCronField ['7'] 7 7 = some true := by decide
  have a1 : matchesCronField ['1'] 0 7 = some false := by decide
  have b1 : matchesCronField ['1'] 7 7 = some false := by decide
  simp [MatchesToday, hsun, hd, hm, a0, a7, b7, a1, b1]

theorem MatchesToday_sunday_witness :
    MatchesToday ⟨"0".toList, "9".toList, "*".toList, "1".toList, "0".toList⟩ ⟨0, 9, 18, 1, 0⟩ = some true ∧
    MatchesToday ⟨"0".toList, "9".toList, "*".toList, "1".toList, "7".toList⟩ ⟨0, 9, 18, 1, 0⟩ = some true ∧
    MatchesToday ⟨"0".toList, "9".toList, "*".toList, "1".toList, "1".toList⟩ ⟨0, 9, 18, 1, 0⟩ = some false :=
  MatchesToday_sunday ⟨"0".toList, "9".toList, "*".toList, "1".toList, "3".toList⟩
    ⟨0, 9, 18, 1, 0⟩ rfl (by decide) (by decide)

/-- C6, refuted as stated: with a negative start the field `-3-5` has three
dash-separated parts and never matches, and an end of 2^63 does not fit an
`int`, though the current value lies in the range both times. -/
theorem matchesCronField_range_counterexample :
    (rangeField (-3) 5 = "-3-5".toList ∧ (-3 : Int) ≤ 0 ∧ (0 : Int) ≤ 5 ∧
      matchesCronField (rangeField (-3) 5) 0 59 = some false) ∧
    (rangeField 0 9223372036854775808 = "0-9223372036854775808".toList ∧
      (0 : Int) ≤ 7 ∧ (7 : Int) ≤ 9223372036854775808 ∧
      matchesCronField (rangeField 0 9223372036854775808) 7 59 = some false) := by
  decide

/-- C6, amended: for non-negative `a` and `b` that fit Go's `int`, the range
field `a-b` is true when `a ≤ current ≤ b` and false otherwise, whatever `max`. -/
theorem matchesCronField_range_nonneg (a b : Nat) (ha : (a : Int) ≤ maxInt)
    (hb : (b : Int) ≤ maxInt) (current max : Int) :
    matchesCronField (rangeField a b) current max =
      some (decide ((a : Int) ≤ current ∧ current ≤ (b : Int))) := by
  have h := matchesCronField_range a b current max
  rw [if_pos ⟨ha, hb⟩] at h
  rw [rangeField, decimalInt_natCast, decimalInt_natCast]
  exact h

theorem matchesCronField_range_nonneg_witness :
    ((1 : Nat) : Int) ≤ maxInt ∧ ((5 : Nat) : Int) ≤ maxInt ∧
      rangeField (1 : Nat) (5 : Nat) = "1-5".toList ∧
      matchesCronField "1-5".toList 3 59 = some true ∧
      matchesCronField "1-5".toList 6 59 = some false :=
  ⟨by decide, by decide, by decide,
    matchesCronField_range_nonneg 1 5 (by decide) (by decide) 3 59,
    matchesCronField_range_nonneg 1 5 (by decide) (by decide) 6 59⟩

/-- C7, refuted as stated: the step 2^63 is at least 1 and divides 0, but it
does not fit Go's `int`, so `strconv.Atoi` fails and the field is false. -/
theorem matchesCronField_starStep_counterexample :
    starStepField 9223372036854775808 = "*/9223372036854775808".toList ∧
      1 ≤ 9223372036854775808 ∧ (0 : Int) % ((9223372036854775808 : Nat) : Int) = 0 ∧
      matchesCronField (starStepField 9223372036854775808) 0 59 = some false := by
  decide

/-- C7, amended: for a step `1 ≤ N` that fits Go's `int`, the field `*/N` is
true exactly when `current mod N = 0`. -/
theorem matchesCronField_starStep_pos (N : Nat) (h1 : 1 ≤ N) (hN : (N : Int) ≤ maxInt)
    (current max : Int) :
    matchesCronField (starStepField N) current max =
      some (decide (current % (N : Int) = 0)) := by
  have h := matchesCronField_starStep N hN current max
  rw [if_neg (by omega)] at h
  exact h

theorem matchesCronField_starStep_pos_witness :
    1 ≤ 15 ∧ ((15 : Nat) : Int) ≤ maxInt ∧ starStepField 15 = "*/15".toList ∧
      matchesCronField "*/15".toList 0 59 = some true ∧
      matchesCronField "*/15".toList 15 59 = some true ∧
      matchesCronField "*/15".toList 30 59 = some true ∧
      matchesCronField "*/15".toList 45 59 = some true ∧
      matchesCronField "*/15".toList 1 59 = some false ∧
      matchesCronField "*/15".toList 7 59 = some false ∧
      matchesCronField "*/15".toList 44 59 = some false :=
  ⟨by decide, by decide, by decide,
    matchesCronField_starStep_pos 15 (by decide) (by decide) 0 59,
    matchesCronField_starStep_pos 15 (by decide) (by decide) 15 59,
    matchesCronField_starStep_pos 15 (by decide) (by decide) 30 59,
    matchesCronField_starStep_pos 15 (by decide) (by decide) 45 59,
    matchesCronField_starStep_pos 15 (by decide) (by decide) 1 59,
    matchesCronField_starStep_pos 15 (by decide) (by decide) 7 59,
    matchesCronField_starStep_pos 15 (by decide) (by decide) 44 59⟩

/-- C8, refuted as stated: with the end 2^63, or with the step 2^63, the
numeral does not fit Go's `int`, `strconv.Atoi` fails and the field is false,
though the current value 0 is in the range and on the step. -/
theorem matchesCronField_rangeStep_counterexample :
    (rangeStepField 0 9223372036854775808 1 = "0-9223372036854775808/1".toList ∧
      (0 : Int) ≤ 0 ∧ (0 : Int) ≤ ((9223372036854775808 : Nat) : Int) ∧
      ((0 : Int) - 0) % ((1 : Nat) : Int) = 0 ∧
      matchesCronField (rangeStepField 0 9223372036854775808 1) 0 59 = some false) ∧
    (rangeStepField 0 5 9223372036854775808 = "0-5/9223372036854775808".toList ∧
      ((0 : Int) - 0) % ((9223372036854775808 : Nat) : Int) = 0 ∧
      matchesCronField (rangeStepField 0 5 9223372036854775808) 0 59 = some false) := by
  decide

/-- C8, amended: for non-negative `start` and `end` and a step `1 ≤ N`, all
fitting Go's `int`, the field `start-end/N` is true exactly when
`start ≤ current ≤ end` and `(current - start) mod N = 0`. -/
theorem matchesCronField_rangeStep_pos (start end_ N : Nat) (hs : (start : Int) ≤ maxInt)
    (he : (end_ : Int) ≤ maxInt) (h1 : 1 ≤ N) (hN : (N : Int) ≤ maxInt)
    (current max : Int) (hc : inInt64 current) :
    matchesCronField (rangeStepField start end_ N) current max =
      some (decide (((start : Int) ≤ current ∧ current ≤ (end_ : Int)) ∧
        (current - (start : Int)) % (N : Int) = 0)) := by
  have h := matchesCronField_rangeStep start end_ N hs he hN current max hc.2
  have hN0 : ¬ (N = 0) := by omega
  rw [h]
  by_cases hr : (start : Int) ≤ current ∧ current ≤ (end_ : Int)
  · simp [hr, hN0]
  · simp [hr]

theorem matchesCronField_rangeStep_pos_witness :
    ((10 : Nat) : Int) ≤ maxInt ∧ ((20 : Nat) : Int) ≤ maxInt ∧ 1 ≤ 2 ∧
      ((2 : Nat) : Int) ≤ maxInt ∧ inInt64 12 ∧
      rangeStepField 10 20 2 = "10-20/2".toList ∧
      matchesCronField "10-20/2".toList 10 59 = some true ∧
      matchesCronField "10-20/2".toList 12 59 = some true ∧
      matchesCronField "10-20/2".toList 20 59 = some true ∧
      matchesCronField "10-20/2".toList 9 59 = some false ∧
      matchesCronField "10-20/2".toList 11 59 = some false ∧
      matchesCronField "10-20/2".toList 21 59 = some false :=
  ⟨by decide, by decide, by decide, by decide, by decide, by decide,
    matchesCronField_rangeStep_pos 10 20 2 (by decide) (by decide) (by decide) (by decide)
      10 59 (by decide),
    matchesCronField_rangeStep_pos 10 20 2 (by decide) (by decide) (by decide) (by decide)
      12 59 (by decide),
    matchesCronField_rangeStep_pos 10 20 2 (by decide) (by decide) (by decide) (by decide)
      20 59 (by decide),
    matchesCronField_rangeStep_pos 10 20 2 (by decide) (by decide) (by decide) (by decide)
      9 59 (by decide),
    matchesCronField_rangeStep_pos 10 20 2 (by decide) (by decide) (by decide) (by decide)
      11 59 (by decide),
    matchesCronField_rangeStep_pos 10 20 2 (by decide) (by decide) (by decide) (by decide)
      21 59 (by decide)⟩

/-- C9: a field that contains a comma is true exactly when one of its
comma-separated entries, trimmed of surrounding white space, parses as a
decimal integer equal to the current value, and is false otherwise; entries
that do not parse are skipped and ranges or steps in an entry are not
interpreted, so `1-5,10` matches 10 and does not match 3. -/
theorem matchesCronField_list (field : Str) (current max : Int) (h : ',' ∈ field) :
    (matchesCronField field current max = some true ↔
      ∃ e ∈ field.splitOn ',', Atoi (TrimSpace e) = some current) ∧
    (matchesCronField field current max ≠ some true →
      matchesCronField field current max = some false) ∧
    matchesCronField "1-5,10".toList 10 max = some true ∧
    matchesCronField "1-5,10".toList 3 max = some false := by
  have h1 : field ≠ ['*'] := by
    intro e; rw [e] at h; simp at h
  have h2 : Contains field ',' = true := (Contains_iff field ',').mpr h
  have hv : matchesCronField field current max = some (matchesList (Split field ',') current) := by
    unfold matchesCronField
    rw [if_neg h1, h2]; simp
  have hex : ∀ c : Int, matchesCronField "1-5,10".toList c max =
      some (matchesList (Split "1-5,10".toList ',') c) := by
    intro c; unfold matchesCronField; rfl
  refine ⟨?_, ?_, ?_, ?_⟩
  · rw [hv, ← Split_eq_splitOn, ← matchesList_eq_true_iff]; simp
  · rw [hv]; cases matchesList (Split field ',') current <;> simp
  · rw [hex]; decide
  · rw [hex]; decide

theorem matchesCronField_list_witness :
    ',' ∈ " 1, x,+5 ,10-20".toList ∧
    (matchesCronField " 1, x,+5 ,10-20".toList 5 59 = some true ↔
      ∃ e ∈ " 1, x,+5 ,10-20".toList.splitOn ',', Atoi (TrimSpace e) = some 5) ∧
    matchesCronField " 1, x,+5 ,10-20".toList 5 59 = some true ∧
    matchesCronField " 1, x,+5 ,10-20".toList 15 59 = some false :=
  ⟨by decide, (matchesCronField_list " 1, x,+5 ,10-20".toList 5 59 (by decide)).1,
    by decide, by decide⟩

/-- C10: a field that is the decimal numeral of a non-negative integer `n` is
true exactly when `n` equals the current value, with no check against `max`;
so an expression whose minute field is a literal of 60 or more, such as `99`,
is accepted by `ParseCronSchedule`, and `MatchesTime` is false at every time
point whose minute is in 0..59. -/
theorem matchesCronField_literal_exact (n : Nat) (current max : Int) (hc : inInt64 current) :
    matchesCronField (decimal n) current max = some (decide ((n : Int) = current)) ∧
    (∀ f1 f2 f3 f4 : Str, isToken f1 → isToken f2 → isToken f3 → isToken f4 → 60 ≤ n →
      ParseCronSchedule (joinFields (decimal n) f1 f2 f3 f4) =
        Except.ok ⟨decimal n, f1, f2, f3, f4⟩ ∧
      ∀ t : TimePoint, inInt64 t.Minute → 0 ≤ t.Minute → t.Minute ≤ 59 →
        MatchesTime ⟨decimal n, f1, f2, f3, f4⟩ t = some false) := by
  refine ⟨matchesCronField_literal n current max hc.2, ?_⟩
  intro f1 f2 f3 f4 t1 t2 t3 t4 hn
  refine ⟨?_, ?_⟩
  · unfold ParseCronSchedule
    rw [Fields_joinFields _ _ _ _ _ (decimal_isToken n) t1 t2 t3 t4]
  · intro t hr h0 h59
    have hne : ¬ ((n : Int) = t.Minute) := by omega
    simp [MatchesTime, matchesCronField_literal n t.Minute 59 hr.2, hne]

theorem matchesCronField_literal_exact_witness :
    inInt64 30 ∧ decimal 99 = "99".toList ∧
      matchesCronField "99".toList 30 59 = some false ∧
      joinFields (decimal 99) "9".toList "*".toList "*".toList "1-5".toList =
        "99 9 * * 1-5".toList ∧
      ParseCronSchedule "99 9 * * 1-5".toList =
        Except.ok ⟨"99".toList, "9".toList, "*".toList, "*".toList, "1-5".toList⟩ ∧
      MatchesTime ⟨"99".toList, "9".toList, "*".toList, "*".toList, "1-5".toList⟩
        ⟨59, 9, 15, 1, 4⟩ = some false :=
  ⟨by decide, by decide, (matchesCronField_literal_exact 99 30 59 (by decide)).1, by decide,
    ((matchesCronField_literal_exact 99 30 59 (by decide)).2 "9".toList "*".toList "*".toList
      "1-5".toList (by decide) (by decide) (by decide) (by decide) (by decide)).1,
    ((matchesCronField_literal_exact 99 30 59 (by decide)).2 "9".toList "*".toList "*".toList
      "1-5".toList (by decide) (by decide) (by decide) (by decide) (by decide)).2
      ⟨59, 9, 15, 1, 4⟩ (by decide) (by decide) (by decide)⟩

/-! ## The header scanner and the directory scan: lemmas -/

theorem trimBoth_id (p : Char → Bool) (s : Str) (hh : ∀ c, s.head? = some c → p c = false)
    (hl : ∀ c, s.getLast? = some c → p c = false) :
    ((s.dropWhile p).reverse.dropWhile p).reverse = s := by
  have h1 : s.dropWhile p = s := by
    cases s with
    | nil => rfl
    | cons c cs =>
      have := hh c rfl
      simp [List.dropWhile_cons, this]
  rw [h1]
  have h2 : List.rdropWhile p s = s := by
    rw [List.rdropWhile_eq_self_iff]
    intro hne
    have := hl _ (List.getLast?_eq_getLast s hne)
    simp [this]
  exact h2

theorem trimBoth_cons (p : Char → Bool) (q : Char) (hq : p q = true) (s : Str) :
    (((q :: s).dropWhile p).reverse.dropWhile p).reverse =
      ((s.dropWhile p).reverse.dropWhile p).reverse := by
  simp [List.dropWhile_cons, hq]

theorem trimBoth_wrapped (p : Char → Bool) (q : Char) (hq : p q = true) (s : Str)
    (hh : ∀ c, s.head? = some c → p c = false) (hl : ∀ c, s.getLast? = some c → p c = false) :
    (((q :: (s ++ [q])).dropWhile p).reverse.dropWhile p).reverse = s := by
  rw [trimBoth_cons p q hq]
  cases s with
  | nil => simp [List.dropWhile_cons, hq]
  | cons c cs =>
    have hc := hh c rfl
    have h1 : ((c :: cs) ++ [q]).dropWhile p = (c :: cs) ++ [q] := by
      simp [List.dropWhile_cons, hc]
    rw [h1]
    have h2 : List.rdropWhile p ((c :: cs) ++ [q]) = List.rdropWhile p (c :: cs) :=
      List.rdropWhile_concat_pos p _ q hq
    have h3 : List.rdropWhile p (c :: cs) = c :: cs := by
      rw [List.rdropWhile_eq_self_iff]
      intro hne
      have := hl _ (List.getLast?_eq_getLast (c :: cs) hne)
      simp [this]
    exact h2.trans h3

theorem SplitNAux_one (k : Str) (hk : ':' ∉ k) (rest : Str) :
    ∀ cur, SplitNAux ':' 1 (k ++ ':' :: rest) cur = [cur ++ k, rest] := by
  induction k with
  | nil => intro cur; simp [SplitNAux]
  | cons c cs ih =>
    intro cur
    have hc : c ≠ ':' := fun e => hk (by simp [e])
    have hcs : ':' ∉ cs := fun e => hk (by simp [e])
    simp [SplitNAux, hc, ih hcs]

theorem SplitN_key (k : Str) (hk : ':' ∉ k) (rest : Str) :
    SplitN (k ++ ':' :: rest) ':' 2 = [k, rest] := by
  simp [SplitN, SplitNAux_one k hk rest]

theorem HasPrefix_iff (s pre : Str) : HasPrefix s pre = true ↔ ∃ rest, s = pre ++ rest := by
  unfold HasPrefix
  rw [List.isPrefixOf_iff_prefix]
  constructor
  · rintro ⟨t, rfl⟩; exact ⟨t, rfl⟩
  · rintro ⟨t, rfl⟩; exact ⟨t, rfl⟩

theorem extractValue_of_prefix (key : Str) (hkey : isKey key) (rest old : Str) :
    extractValue (key ++ rest) key old = Trim (TrimSpace rest) ['"', '\''] := by
  obtain ⟨k, hk, rfl⟩ := hkey
  have hp : HasPrefix (k ++ [':'] ++ rest) (k ++ [':']) = true :=
    (HasPrefix_iff _ _).mpr ⟨rest, rfl⟩
  have hs : SplitN (k ++ [':'] ++ rest) ':' 2 = [k, rest] := by
    have := SplitN_key k hk rest
    simpa using this
  unfold extractValue
  rw [hp, hs]
  simp

theorem extractValue_of_not_prefix (line key old : Str) (h : HasPrefix line key = false) :
    extractValue line key old = old := by
  unfold extractValue
  rw [h]; simp

theorem isKey_schedule : isKey "review_schedule:".toList :=
  ⟨"review_schedule".toList, by decide, by decide⟩

theorem isKey_title : isKey "title:".toList := ⟨"title".toList, by decide, by decide⟩

theorem scanLoop_outside (scanErr : Bool) (lines : List Str) :
    ∀ (n : Nat) (schedule title : Str), 1 ≤ n →
      scanLoop lines scanErr false n schedule title =
        if scanErr then ⟨[], [], true⟩ else ⟨schedule, title, false⟩ := by
  induction lines with
  | nil => intro n schedule title _; simp [scanLoop]
  | cons line rest ih =>
    intro n schedule title hn
    have h1 : ¬ (n + 1 = 1) := by omega
    simp [scanLoop, h1, ih (n + 1) schedule title (by omega)]

theorem scanLoop_header (scanErr : Bool) (header rest : List Str) (h : delimiter ∉ header) :
    ∀ (n : Nat) (schedule title : Str),
      scanLoop (header ++ rest) scanErr true n schedule title =
        scanLoop rest scanErr true (n + header.length)
          (headerFold "review_schedule:".toList header schedule)
          (headerFold "title:".toList header title) := by
  induction header with
  | nil => intro n schedule title; simp [headerFold]
  | cons line more ih =>
    intro n schedule title
    have hl : line ≠ delimiter := fun e => h (by simp [e])
    have hm : delimiter ∉ more := fun e => h (by simp [e])
    have hstep : scanLoop ((line :: more) ++ rest) scanErr true n schedule title =
        scanLoop (more ++ rest) scanErr true (n + 1)
          (extractValue (TrimSpace line) "review_schedule:".toList schedule)
          (extractValue (TrimSpace line) "title:".toList title) := by
      simp [scanLoop, hl]
    rw [hstep, ih hm]
    simp [headerFold, Nat.add_assoc, Nat.add_comm 1]

theorem scanLoop_closing (scanErr : Bool) (tail : List Str) (n : Nat) (schedule title : Str) :
    scanLoop (delimiter :: tail) scanErr true n schedule title = ⟨schedule, title, false⟩ := by
  simp [scanLoop]

theorem scanLoop_opening (scanErr : Bool) (rest : List Str) :
    scanLoop (delimiter :: rest) scanErr false 0 [] [] = scanLoop rest scanErr true 1 [] [] := by
  simp [scanLoop]

theorem headerFold_eq (key : Str) (hkey : isKey key) (header : List Str) :
    ∀ old, headerFold key header old =
      match ((header.map TrimSpace).filter (fun l => HasPrefix l key)).getLast? with
      | none => old
      | some l => Trim (TrimSpace (l.drop key.length)) ['"', '\''] := by
  induction header with
  | nil => intro old; simp [headerFold]
  | cons line more ih =>
    intro old
    have hstep : headerFold key (line :: more) old =
        headerFold key more (extractValue (TrimSpace line) key old) := by
      simp [headerFold]
    rw [hstep, ih]
    by_cases hp : HasPrefix (TrimSpace line) key = true
    · obtain ⟨rest, hrest⟩ := (HasPrefix_iff _ _).mp hp
      have hv : extractValue (TrimSpace line) key old =
          Trim (TrimSpace ((TrimSpace line).drop key.length)) ['"', '\''] := by
        rw [hrest, extractValue_of_prefix key hkey]
        simp
      simp only [List.map_cons, List.filter_cons, hp, if_true, List.getLast?_cons]
      cases hX : ((more.map TrimSpace).filter (fun l => HasPrefix l key)).getLast? with
      | none => simp [hv]
      | some x => simp
    · have hp' : HasPrefix (TrimSpace line) key = false := by simpa using hp
      simp [List.filter_cons, hp', extractValue_of_not_prefix _ _ _ hp']

theorem headerFold_nil (key : Str) (hkey : isKey key) (header : List Str) :
    headerFold key header [] = headerValue key header := by
  rw [headerFold_eq key hkey]
  unfold headerValue
  cases ((header.map TrimSpace).filter (fun l => HasPrefix l key)).getLast? <;> rfl

theorem headerFold_append (key : Str) (a b : List Str) (old : Str) :
    headerFold key (a ++ b) old = headerFold key b (headerFold key a old) := by
  simp [headerFold]

theorem headerFold_no_key (key : Str) (post : List Str)
    (h : ∀ l ∈ post, HasPrefix (TrimSpace l) key = false) :
    ∀ old, headerFold key post old = old := by
  induction post with
  | nil => intro old; rfl
  | cons l ls ih =>
    intro old
    have h1 := h l (by simp)
    have h2 : ∀ x ∈ ls, HasPrefix (TrimSpace x) key = false := fun x hx => h x (by simp [hx])
    have : headerFold key (l :: ls) old = headerFold key ls (extractValue (TrimSpace l) key old) := by
      simp [headerFold]
    rw [this, extractValue_of_not_prefix _ _ _ h1, ih h2]

/-- A document that opens with the delimiter: the result is decided by the
lines up to the next delimiter. -/
theorem scanLoop_document (scanErr : Bool) (header : List Str) (h : delimiter ∉ header) :
    (∀ tail, scanLoop (delimiter :: (header ++ delimiter :: tail)) scanErr false 0 [] [] =
      ⟨headerFold "review_schedule:".toList header [], headerFold "title:".toList header [],
        false⟩) ∧
    scanLoop (delimiter :: header) false false 0 [] [] =
      ⟨headerFold "review_schedule:".toList header [], headerFold "title:".toList header [],
        false⟩ := by
  constructor
  · intro tail
    rw [scanLoop_opening, scanLoop_header scanErr header _ h, scanLoop_closing]
  · have := scanLoop_header false header [] h 1 [] []
    rw [List.append_nil] at this
    rw [scanLoop_opening, this]
    simp [scanLoop]

theorem TrimSpace_id (s : Str) (hh : ∀ c, s.head? = some c → isSpace c = false)
    (hl : ∀ c, s.getLast? = some c → isSpace c = false) : TrimSpace s = s :=
  trimBoth_id isSpace s hh hl

theorem plainChar_spec (c : Char) (h : plainChar c = true) :
    isSpace c = false ∧ (['"', '\''] : Str).contains c = false := by
  unfold plainChar at h
  simp only [Bool.and_eq_true, Bool.not_eq_true', bne_iff_ne, ne_eq] at h
  obtain ⟨⟨h1, h2⟩, h3⟩ := h
  refine ⟨h1, ?_⟩
  simp [h2, h3]

theorem cleanEnds_spec (v : Str) (hv : cleanEnds v) :
    (∀ c, v.head? = some c → plainChar c = true) ∧
    (∀ c, v.getLast? = some c → plainChar c = true) := by
  obtain ⟨h1, h2⟩ := hv
  constructor
  · intro c hc; rw [hc] at h1; simpa using h1
  · intro c hc; rw [hc] at h2; simpa using h2

/-- The value part of a value line: trimmed of white space and of quotes, it
is the value. -/
theorem Trim_body (v body : Str) (hv : cleanEnds v)
    (hb : body = v ∨ body = '"' :: (v ++ ['"']) ∨ body = '\'' :: (v ++ ['\''])) :
    Trim (TrimSpace (' ' :: body)) ['"', '\''] = v ∧
    (∀ c, body.getLast? = some c → isSpace c = false) := by
  obtain ⟨hh, hl⟩ := cleanEnds_spec v hv
  have hsp : isSpace ' ' = true := by decide
  have hts : TrimSpace (' ' :: body) = TrimSpace body := trimBoth_cons isSpace ' ' hsp body
  rw [hts]
  rcases hb with rfl | rfl | rfl
  · have h1 : TrimSpace body = body :=
      TrimSpace_id body (fun c hc => (plainChar_spec c (hh c hc)).1)
        (fun c hc => (plainChar_spec c (hl c hc)).1)
    rw [h1]
    exact ⟨trimBoth_id _ body (fun c hc => (plainChar_spec c (hh c hc)).2)
      (fun c hc => (plainChar_spec c (hl c hc)).2),
      fun c hc => (plainChar_spec c (hl c hc)).1⟩
  · have hlast : ∀ c, ('"' :: (v ++ ['"'])).getLast? = some c → isSpace c = false := by
      intro c hc
      have : ('"' :: (v ++ ['"'])).getLast? = some '"' := by
        rw [← List.cons_append, List.getLast?_concat]
      rw [this] at hc
      cases hc; decide
    have h1 : TrimSpace ('"' :: (v ++ ['"'])) = '"' :: (v ++ ['"']) :=
      TrimSpace_id _ (fun c hc => by simp at hc; subst hc; decide) hlast
    rw [h1]
    exact ⟨trimBoth_wrapped _ '"' (by decide) v (fun c hc => (plainChar_spec c (hh c hc)).2)
      (fun c hc => (plainChar_spec c (hl c hc)).2), hlast⟩
  · have hlast : ∀ c, ('\'' :: (v ++ ['\''])).getLast? = some c → isSpace c = false := by
      intro c hc
      have : ('\'' :: (v ++ ['\''])).getLast? = some '\'' := by
        rw [← List.cons_append, List.getLast?_concat]
      rw [this] at hc
      cases hc; decide
    have h1 : TrimSpace ('\'' :: (v ++ ['\''])) = '\'' :: (v ++ ['\'']) :=
      TrimSpace_id _ (fun c hc => by simp at hc; subst hc; decide) hlast
    rw [h1]
    exact ⟨trimBoth_wrapped _ '\'' (by decide) v (fun c hc => (plainChar_spec c (hh c hc)).2)
      (fun c hc => (plainChar_spec c (hl c hc)).2), hlast⟩

/-- A value line sets the variable of its key to the value. -/
theorem extractValue_valueLine (key : Str) (hkey : isKey key)
    (hhead : ∀ c, key.head? = some c → isSpace c = false) (v : Str) (hv : cleanEnds v)
    (line : Str) (hline : line ∈ valueLines key v) (old : Str) :
    extractValue (TrimSpace line) key old = v := by
  have hb : ∃ body, line = key ++ ' ' :: body ∧
      (body = v ∨ body = '"' :: (v ++ ['"']) ∨ body = '\'' :: (v ++ ['\''])) := by
    simp only [valueLines, List.mem_cons, List.mem_singleton, List.not_mem_nil, or_false] at hline
    rcases hline with h | h | h
    · exact ⟨v, h, Or.inl rfl⟩
    · exact ⟨_, h, Or.inr (Or.inl rfl)⟩
    · exact ⟨_, h, Or.inr (Or.inr rfl)⟩
  obtain ⟨body, rfl, hbody⟩ := hb
  obtain ⟨hval, hlast⟩ := Trim_body v body hv hbody
  obtain ⟨k, hk, hkeq⟩ := hkey
  have hkey' : isKey key := ⟨k, hk, hkeq⟩
  have hcolon : isSpace ':' = false := by decide
  have hsp : isSpace ' ' = true := by decide
  have hkne : key ≠ [] := by rw [hkeq]; simp
  have hhead' : ∀ c, (key ++ ' ' :: body).head? = some c → isSpace c = false := by
    intro c hc
    rw [List.head?_append_of_ne_nil _ hkne] at hc
    exact hhead c hc
  by_cases hbe : body = []
  · subst hbe
    have hv0 : v = [] := by
      rcases hbody with h | h | h
      · exact h.symm
      · simp at h
      · simp at h
    have ht : TrimSpace (key ++ [' ']) = key := by
      unfold TrimSpace
      have h1 : (key ++ [' ']).dropWhile isSpace = key ++ [' '] := by
        obtain ⟨c, cs, hcs⟩ := List.exists_cons_of_ne_nil hkne
        have := hhead c (by rw [hcs]; rfl)
        rw [hcs]
        simp [List.dropWhile_cons, this]
      rw [h1]
      have h2 : List.rdropWhile isSpace (key ++ [' ']) = List.rdropWhile isSpace key :=
        List.rdropWhile_concat_pos isSpace key ' ' hsp
      have h3 : List.rdropWhile isSpace key = key := by
        rw [hkeq]
        exact List.rdropWhile_concat_neg isSpace k ':' (by simp [hcolon])
      exact h2.trans h3
    rw [ht]
    have := extractValue_of_prefix key hkey' [] old
    rw [List.append_nil] at this
    rw [this, hv0]
    decide
  · have hlast' : ∀ c, (key ++ ' ' :: body).getLast? = some c → isSpace c = false := by
      intro c hc
      obtain ⟨l, d, hld⟩ : ∃ l d, body = l ++ [d] :=
        ⟨body.dropLast, body.getLast hbe, (List.dropLast_append_getLast hbe).symm⟩
      have hd : body.getLast? = some d := by rw [hld, List.getLast?_concat]
      have : (key ++ ' ' :: body).getLast? = some d := by
        rw [hld, ← List.cons_append, ← List.append_assoc, List.getLast?_concat]
      rw [this] at hc
      have hcd : d = c := by simpa using hc
      rw [← hcd]
      exact hlast d hd
    rw [TrimSpace_id _ hhead' hlast', extractValue_of_prefix key hkey', hval]

theorem ExtractFrontmatterData_some (lines : List Str) (scanErr : Bool) :
    ExtractFrontmatterData (some ⟨lines, scanErr⟩) = scanLoop lines scanErr false 0 [] [] :=
  rfl

/-- A document `delimiter :: pre ++ line :: post` without a scan error: the
header is `pre`, `line` and the lines of `post` before its first delimiter. -/
theorem scanLoop_valueLine (pre post : List Str) (line : Str) (hpre : delimiter ∉ pre)
    (hline : line ≠ delimiter) :
    scanLoop (delimiter :: (pre ++ line :: post)) false false 0 [] [] =
      ⟨headerFold "review_schedule:".toList (pre ++ line :: untilDelimiter post) [],
        headerFold "title:".toList (pre ++ line :: untilDelimiter post) [], false⟩ := by
  unfold untilDelimiter
  have hnot : delimiter ∉ pre ++ line :: post.takeWhile (fun l => decide (l ≠ delimiter)) := by
    intro hmem
    rcases List.mem_append.mp hmem with h | h
    · exact hpre h
    · rcases List.mem_cons.mp h with h | h
      · exact hline h.symm
      · have := List.mem_takeWhile_imp h
        simp at this
  have hsplit : pre ++ line :: post =
      (pre ++ line :: post.takeWhile (fun l => decide (l ≠ delimiter))) ++
        post.dropWhile (fun l => decide (l ≠ delimiter)) := by
    simp [List.takeWhile_append_dropWhile]
  cases hd : post.dropWhile (fun l => decide (l ≠ delimiter)) with
  | nil =>
    rw [hsplit, hd, List.append_nil]
    exact (scanLoop_document false _ hnot).2
  | cons x tail =>
    have hx : x = delimiter := by
      have := List.head_dropWhile_not (fun l => decide (l ≠ delimiter)) post
        (by rw [hd]; simp)
      simp only [hd, List.head_cons] at this
      simpa using this
    rw [hsplit, hd, hx]
    exact (scanLoop_document false _ hnot).1 tail

theorem valueLine_ne_delimiter (key v line : Str)
    (hline : line ∈ valueLines key v) : line ≠ delimiter := by
  intro h
  have hmem : ' ' ∈ line := by
    simp only [valueLines, List.mem_cons, List.mem_singleton, List.not_mem_nil, or_false] at hline
    rcases hline with h | h | h <;> rw [h] <;> simp
  rw [h] at hmem
  revert hmem
  decide

/-- The header variable of `key` after a document whose header holds a value
line for `key` and no later line with that key. -/
theorem headerFold_valueLine (key : Str) (hkey : isKey key)
    (hhead : ∀ c, key.head? = some c → isSpace c = false) (v : Str) (hv : cleanEnds v)
    (line : Str) (hline : line ∈ valueLines key v) (pre post : List Str)
    (hpost : ∀ l ∈ post, HasPrefix (TrimSpace l) key = false) :
    headerFold key (pre ++ line :: post) [] = v := by
  rw [headerFold_append]
  have hstep : ∀ old, headerFold key (line :: post) old =
      headerFold key post (extractValue (TrimSpace line) key old) := by
    intro old; simp [headerFold]
  rw [hstep, extractValue_valueLine key hkey hhead v hv line hline, headerFold_no_key key post hpost]

theorem isMatchingEntry_spec (w : World) (t : TimePoint) (exact : Bool) (e : WalkEntry)
    (h : isMatchingEntry w t exact e = true) :
    (ExtractFrontmatterData (w.openFile e.path)).schedule ≠ [] ∧
    ∃ cs, ParseCronSchedule (ExtractFrontmatterData (w.openFile e.path)).schedule =
        Except.ok cs ∧
      (if exact = true then MatchesTime cs t else MatchesToday cs t) = some true := by
  unfold isMatchingEntry at h
  simp only [Bool.and_eq_true, decide_eq_true_eq] at h
  obtain ⟨⟨-, hne⟩, hmatch⟩ := h
  refine ⟨hne, ?_⟩
  cases hp : ParseCronSchedule (ExtractFrontmatterData (w.openFile e.path)).schedule with
  | error err => simp [hp] at hmatch
  | ok cs =>
    simp only [hp, decide_eq_true_eq] at hmatch
    exact ⟨cs, rfl, hmatch⟩

theorem walkFn_empty_schedule (w : World) (absDir : Str) (t : TimePoint) (exact : Bool)
    (matched : List FileInfo) (e : WalkEntry)
    (h : (ExtractFrontmatterData (w.openFile e.path)).schedule = []) :
    walkFn w absDir t exact matched e = some (matched, e.walkErr) := by
  unfold walkFn
  by_cases h1 : e.walkErr = true
  · simp [h1]
  by_cases h2 : e.isDir = true
  · simp [h1, h2]
  by_cases h3 : HasSuffix (ToLower w.lowerTable e.path) ['.', 'm', 'd'] = true
  swap
  · simp [h1, h2, h3]
  by_cases h4 : (ExtractFrontmatterData (w.openFile e.path)).err = true
  · simp [h1, h2, h3, h4]
  simp [h1, h2, h3, h4, h]

theorem isMatchingEntry_walkErr (w : World) (t : TimePoint) (exact : Bool) (e : WalkEntry)
    (h : e.walkErr = true) : isMatchingEntry w t exact e = false := by
  simp [isMatchingEntry, h]

/-- One call of the callback, exactly: the error flag is the entry's, and the
record of the entry is appended when, and only when, the entry matches. -/
theorem walkFn_exact (w : World) (absDir : Str) (t : TimePoint) (exact : Bool)
    (matched : List FileInfo) (e : WalkEntry) (out : List FileInfo) (flag : Bool)
    (h : walkFn w absDir t exact matched e = some (out, flag)) :
    flag = e.walkErr ∧
    out = matched ++ (if isMatchingEntry w t exact e = true then [recordOf w absDir e] else []) := by
  unfold walkFn at h
  cases h1 : e.walkErr
  swap
  · simp [h1] at h
    simp [isMatchingEntry, h1, h.1, h.2]
  cases h2 : e.isDir
  swap
  · simp [h1, h2] at h
    simp [isMatchingEntry, h1, h2, h.1, h.2]
  cases h3 : HasSuffix (ToLower w.lowerTable e.path) ['.', 'm', 'd']
  · simp [h1, h2, h3] at h
    simp [isMatchingEntry, h1, h2, h3, h.1, h.2]
  cases h4 : (ExtractFrontmatterData (w.openFile e.path)).err
  swap
  · simp [h1, h2, h3, h4] at h
    simp [isMatchingEntry, h1, h2, h3, h4, h.1, h.2]
  by_cases h5 : (ExtractFrontmatterData (w.openFile e.path)).schedule = []
  · simp [h1, h2, h3, h4, h5] at h
    simp [isMatchingEntry, h1, h2, h3, h4, h5, h.1, h.2]
  cases hp : ParseCronSchedule (ExtractFrontmatterData (w.openFile e.path)).schedule with
  | error err =>
    simp [h1, h2, h3, h4, h5, hp] at h
    simp [isMatchingEntry, h1, h2, h3, h4, h5, hp, h.1, h.2]
  | ok cs =>
    cases hm : (if exact = true then MatchesTime cs t else MatchesToday cs t) with
    | none => simp [h1, h2, h3, h4, h5, hp, hm] at h
    | some b =>
      cases b with
      | false =>
        simp [h1, h2, h3, h4, h5, hp, hm] at h
        simp [isMatchingEntry, h1, h2, h3, h4, h5, hp, hm, h.1, h.2]
      | true =>
        simp [h1, h2, h3, h4, h5, hp, hm] at h
        have hmatch : isMatchingEntry w t exact e = true := by
          simp [isMatchingEntry, h1, h2, h3, h4, h5, hp, hm]
        refine ⟨h.2, ?_⟩
        rw [if_pos hmatch, ← h.1]
        rfl

/-- The walk, exactly: the records of the matching entries among the visited
ones, in walk order, after the matches already found. -/
theorem walkLoop_exact (w : World) (absDir : Str) (t : TimePoint) (exact : Bool)
    (es : List WalkEntry) :
    ∀ (matched out : List FileInfo) (flag : Bool),
      walkLoop w absDir t exact es matched = some (out, flag) →
      out = matched ++
        ((visitedEntries es).filter (isMatchingEntry w t exact)).map (recordOf w absDir) := by
  induction es with
  | nil =>
    intro matched out flag h
    simp [walkLoop] at h
    simp [visitedEntries, h.1]
  | cons e es ih =>
    intro matched out flag h
    unfold walkLoop at h
    cases hf : walkFn w absDir t exact matched e with
    | none => simp [hf] at h
    | some res =>
      obtain ⟨m', b⟩ := res
      obtain ⟨hb, hm'⟩ := walkFn_exact w absDir t exact matched e m' b hf
      cases hw : e.walkErr with
      | true =>
        rw [hw] at hb
        subst hb
        simp [hf] at h
        have hno := isMatchingEntry_walkErr w t exact e hw
        rw [hno] at hm'
        simp [visitedEntries, List.takeWhile_cons, hw, ← h.1, hm']
      | false =>
        rw [hw] at hb
        subst hb
        simp only [hf] at h
        have hrec := ih m' out flag h
        rw [hrec, hm']
        by_cases hmatch : isMatchingEntry w t exact e = true
        · simp [visitedEntries, List.takeWhile_cons, hw, List.filter_cons, hmatch]
        · have hmf : isMatchingEntry w t exact e = false := by simpa using hmatch
          simp [visitedEntries, List.takeWhile_cons, hw, List.filter_cons, hmf]

theorem ScanDirectory_exact (w : World) (dir : Str) (t : TimePoint) (exact : Bool)
    (out : List FileInfo) (flag : Bool) (h : ScanDirectory w dir t exact = some (out, flag)) :
    out = ((visitedEntries (w.walk dir)).filter (isMatchingEntry w t exact)).map
      (recordOf w ((w.abs dir).getD dir)) := by
  have := walkLoop_exact w ((w.abs dir).getD dir) t exact (w.walk dir) [] out flag h
  simpa using this

theorem visitedEntries_subset (es : List WalkEntry) : ∀ e ∈ visitedEntries es, e ∈ es :=
  fun _ he => (List.takeWhile_sublist _).subset he

theorem isMatchingEntry_empty_schedule (w : World) (t : TimePoint) (exact : Bool)
    (e : WalkEntry) (h : (ExtractFrontmatterData (w.openFile e.path)).schedule = []) :
    isMatchingEntry w t exact e = false := by
  simp [isMatchingEntry, h]

theorem isMatchingEntry_file (w : World) (t : TimePoint) (exact : Bool) (e : WalkEntry)
    (h : isMatchingEntry w t exact e = true) :
    e.walkErr = false ∧ e.isDir = false ∧
    HasSuffix (ToLower w.lowerTable e.path) ".md".toList = true ∧
    (ExtractFrontmatterData (w.openFile e.path)).err = false := by
  unfold isMatchingEntry at h
  simp only [Bool.and_eq_true, Bool.not_eq_true', decide_eq_true_eq] at h
  obtain ⟨⟨⟨⟨⟨h1, h2⟩, h3⟩, h4⟩, -⟩, -⟩ := h
  exact ⟨h1, h2, h3, h4⟩

theorem isMatchingEntry_iff (w : World) (t : TimePoint) (exact : Bool) (e : WalkEntry) :
    isMatchingEntry w t exact e = true ↔
      e.walkErr = false ∧ e.isDir = false ∧
      HasSuffix (ToLower w.lowerTable e.path) ".md".toList = true ∧
      (ExtractFrontmatterData (w.openFile e.path)).err = false ∧
      (ExtractFrontmatterData (w.openFile e.path)).schedule ≠ [] ∧
      ∃ cs, ParseCronSchedule (ExtractFrontmatterData (w.openFile e.path)).schedule =
          Except.ok cs ∧
        (if exact = true then MatchesTime cs t else MatchesToday cs t) = some true := by
  constructor
  · intro h
    obtain ⟨h1, h2, h3, h4⟩ := isMatchingEntry_file w t exact e h
    obtain ⟨hne, cs, hp, hm⟩ := isMatchingEntry_spec w t exact e h
    exact ⟨h1, h2, h3, h4, hne, cs, hp, hm⟩
  · rintro ⟨h1, h2, h3, h4, hne, cs, hp, hm⟩
    have h3' : HasSuffix (ToLower w.lowerTable e.path) ['.', 'm', 'd'] = true := h3
    simp [isMatchingEntry, h1, h2, h3', h4, hne, hp, hm]

theorem TrimSuffix_append (a b : Str) : TrimSuffix (a ++ b) b = a := by
  have hs : HasSuffix (a ++ b) b = true := by
    unfold HasSuffix
    rw [List.isSuffixOf_iff_suffix]
    exact List.suffix_append a b
  unfold TrimSuffix
  rw [hs]
  simp

theorem ExtAux_spec (rp : Str) :
    ∀ acc, ExtAux rp acc = [] ∨
      ∃ pre rest, rp = pre ++ '.' :: rest ∧ (∀ c ∈ pre, c ≠ '/') ∧
        ExtAux rp acc = '.' :: (pre.reverse ++ acc) := by
  induction rp with
  | nil => intro acc; exact Or.inl rfl
  | cons c before ih =>
    intro acc
    by_cases h1 : c = '/'
    · left; simp [ExtAux, h1]
    by_cases h2 : c = '.'
    · right
      exact ⟨[], before, by simp [h2], by simp, by simp [ExtAux, h2]⟩
    · have hstep : ExtAux (c :: before) acc = ExtAux before (c :: acc) := by
        simp [ExtAux, h1, h2]
      rcases ih (c :: acc) with h | ⟨pre, rest, hrp, hpre, hext⟩
      · left; rw [hstep, h]
      · right
        refine ⟨c :: pre, rest, by simp [hrp], ?_, ?_⟩
        · intro x hx
          rcases List.mem_cons.mp hx with rfl | hx
          · exact h1
          · exact hpre x hx
        · rw [hstep, hext]; simp

/-- The base name is the title fallback followed by the extension. -/
theorem Base_eq_stem_append_Ext (path : Str) :
    TrimSuffix (Base path) (Ext path) ++ Ext path = Base path := by
  rcases ExtAux_spec path.reverse [] with h | ⟨pre, rest, hrp, hpre, hext⟩
  · have hE : Ext path = [] := h
    rw [hE]
    have : TrimSuffix (Base path) [] = Base path := by
      have := TrimSuffix_append (Base path) []
      simpa using this
    simp [this]
  · have hE : Ext path = '.' :: pre.reverse := by
      have : Ext path = ExtAux path.reverse [] := rfl
      rw [this, hext]; simp
    have hne : path ≠ [] := by
      intro e; rw [e] at hrp; simp at hrp
    have hdrop : path.reverse.dropWhile (fun c => c == '/') = path.reverse := by
      rw [hrp]
      cases pre with
      | nil => simp [List.dropWhile_cons]
      | cons x xs =>
        have hx : x ≠ '/' := hpre x (by simp)
        simp [List.dropWhile_cons, hx]
    have htake : path.reverse.takeWhile (fun c => c != '/') =
        pre ++ '.' :: rest.takeWhile (fun c => c != '/') := by
      rw [hrp, List.takeWhile_append_of_pos (by
        intro a ha
        simpa using hpre a ha)]
      simp [List.takeWhile_cons]
    have hB : Base path = (rest.takeWhile (fun c => c != '/')).reverse ++ '.' :: pre.reverse := by
      unfold Base
      simp only [if_neg hne, hdrop, List.reverse_reverse, htake]
      simp
    rw [hB, hE, TrimSuffix_append]

theorem recordOf_title (w : World) (absDir : Str) (e : WalkEntry) :
    ((ExtractFrontmatterData (w.openFile e.path)).title ≠ [] →
      (recordOf w absDir e).Title = (ExtractFrontmatterData (w.openFile e.path)).title) ∧
    ((ExtractFrontmatterData (w.openFile e.path)).title = [] →
      (recordOf w absDir e).Title = TrimSuffix (Base e.path) (Ext e.path) ∧
      (recordOf w absDir e).Title ++ Ext e.path = Base e.path) := by
  constructor
  · intro hne
    simp [recordOf, hne]
  · intro hempty
    have : (recordOf w absDir e).Title = TrimSuffix (Base e.path) (Ext e.path) := by
      simp [recordOf, hempty]
    rw [this]
    exact ⟨rfl, Base_eq_stem_append_Ext e.path⟩

theorem ToLower_upper_note (table : Char → Char) :
    ToLower table "NOTE.MD".toList = "note.md".toList := rfl

theorem ToLower_lower_note (table : Char → Char) :
    ToLower table "note.md".toList = "note.md".toList := rfl

theorem every_minute_matches (t : TimePoint) (exact : Bool) :
    (if exact = true then MatchesTime ⟨['*'], ['*'], ['*'], ['*'], ['*']⟩ t
      else MatchesToday ⟨['*'], ['*'], ['*'], ['*'], ['*']⟩ t) = some true := by
  cases exact <;> simp [MatchesTime, MatchesToday, matchesCronField]

theorem daily_nine_matches_today (t : TimePoint) :
    MatchesToday ⟨['0'], ['9'], ['*'], ['*'], ['*']⟩ t = some true := by
  simp [MatchesToday, matchesCronField]

/-! ## The claims on dates, headers and the scan -/

/-- C11: `MatchesToday` ignores the time of day: two schedules that differ
only in their Minute and Hour fields, at two time points with the same day,
month and weekday but any hour and minute, give the same result. -/
theorem MatchesToday_ignores_time (minute hour minute' hour' dom month dow : Str)
    (tMinute tHour tMinute' tHour' day mon weekday : Int) :
    MatchesToday ⟨minute, hour, dom, month, dow⟩ ⟨tMinute, tHour, day, mon, weekday⟩ =
      MatchesToday ⟨minute', hour', dom, month, dow⟩ ⟨tMinute', tHour', day, mon, weekday⟩ := by
  unfold MatchesToday
  rfl

/-- C12: a document whose first line is not exactly the delimiter `---` (or
that has no line at all) yields an empty schedule and an empty title, whatever
the later lines are. -/
theorem ExtractFrontmatterData_no_opening (lines : List Str) (scanErr : Bool)
    (h : lines.head? ≠ some delimiter) :
    (ExtractFrontmatterData (some ⟨lines, scanErr⟩)).schedule = [] ∧
    (ExtractFrontmatterData (some ⟨lines, scanErr⟩)).title = [] := by
  unfold ExtractFrontmatterData
  cases lines with
  | nil => cases scanErr <;> simp [scanLoop]
  | cons line rest =>
    have hl : line ≠ delimiter := fun e => h (by simp [e])
    have hstep : scanLoop (line :: rest) scanErr false 0 [] [] =
        scanLoop rest scanErr false 1 [] [] := by
      simp [scanLoop, hl]
    simp only [hstep, scanLoop_outside scanErr rest 1 [] [] (Nat.le_refl 1)]
    cases scanErr <;> simp

theorem ExtractFrontmatterData_no_opening_witness :
    ["# Note".toList, "---".toList, "review_schedule: 0 9 * * *".toList, "title: T".toList,
        "---".toList].head? ≠ some delimiter ∧
    (ExtractFrontmatterData (some ⟨["# Note".toList, "---".toList,
      "review_schedule: 0 9 * * *".toList, "title: T".toList, "---".toList], false⟩)).schedule
        = [] ∧
    (ExtractFrontmatterData (some ⟨["# Note".toList, "---".toList,
      "review_schedule: 0 9 * * *".toList, "title: T".toList, "---".toList], false⟩)).title
        = [] :=
  ⟨by decide, ExtractFrontmatterData_no_opening _ false (by decide)⟩

/-- C13: for a document that opens with the delimiter and has a later closing
delimiter, the result is that of the lines strictly between the two (the last
value of each key there), so replacing the lines after the closing delimiter
changes neither output. -/
theorem ExtractFrontmatterData_frame (header : List Str) (h : delimiter ∉ header)
    (tail tail' : List Str) (scanErr scanErr' : Bool) :
    ExtractFrontmatterData (some ⟨delimiter :: (header ++ delimiter :: tail), scanErr⟩) =
      ExtractFrontmatterData (some ⟨delimiter :: (header ++ delimiter :: tail'), scanErr'⟩) ∧
    ExtractFrontmatterData (some ⟨delimiter :: (header ++ delimiter :: tail), scanErr⟩) =
      ⟨headerValue "review_schedule:".toList header, headerValue "title:".toList header,
        false⟩ := by
  unfold ExtractFrontmatterData
  simp only [(scanLoop_document scanErr header h).1, (scanLoop_document scanErr' header h).1,
    headerFold_nil _ isKey_schedule, headerFold_nil _ isKey_title, and_self]

theorem ExtractFrontmatterData_frame_witness :
    delimiter ∉ ["title: A".toList, " review_schedule: '0 9 * * 1-5'".toList] ∧
    ExtractFrontmatterData (some ⟨delimiter :: (["title: A".toList,
        " review_schedule: '0 9 * * 1-5'".toList] ++ delimiter :: ["title: B".toList]), false⟩) =
      ExtractFrontmatterData (some ⟨delimiter :: (["title: A".toList,
        " review_schedule: '0 9 * * 1-5'".toList] ++ delimiter ::
          ["review_schedule: * * * * *".toList, delimiter]), true⟩) ∧
    ExtractFrontmatterData (some ⟨delimiter :: (["title: A".toList,
        " review_schedule: '0 9 * * 1-5'".toList] ++ delimiter :: ["title: B".toList]), false⟩) =
      ⟨"0 9 * * 1-5".toList, "A".toList, false⟩ :=
  ⟨by decide,
    (ExtractFrontmatterData_frame _ (by decide) ["title: B".toList]
      ["review_schedule: * * * * *".toList, delimiter] false true).1,
    by decide⟩

/-- C14: for a value `v` that does not begin or end with white space or a
quote character, the header line `review_schedule: v`, the same line with `v`
in double quotes and the same line with `v` in single quotes each make
`ExtractFrontmatterData` return exactly `v` as the schedule, when no later
header line starts with the key; likewise for `title:` and the title. -/
theorem ExtractFrontmatterData_value (v : Str) (hv : cleanEnds v) (pre post : List Str)
    (hpre : delimiter ∉ pre) :
    (∀ line ∈ valueLines "review_schedule:".toList v,
      (∀ l ∈ untilDelimiter post, HasPrefix (TrimSpace l) "review_schedule:".toList = false) →
      (ExtractFrontmatterData (some ⟨delimiter :: (pre ++ line :: post), false⟩)).schedule = v) ∧
    (∀ line ∈ valueLines "title:".toList v,
      (∀ l ∈ untilDelimiter post, HasPrefix (TrimSpace l) "title:".toList = false) →
      (ExtractFrontmatterData (some ⟨delimiter :: (pre ++ line :: post), false⟩)).title = v) := by
  constructor
  · intro line hline hpost
    rw [ExtractFrontmatterData_some, scanLoop_valueLine pre post line hpre
      (valueLine_ne_delimiter _ v line hline)]
    exact headerFold_valueLine _ isKey_schedule (fun c hc => by simp at hc; subst hc; decide)
      v hv line hline pre _ hpost
  · intro line hline hpost
    rw [ExtractFrontmatterData_some, scanLoop_valueLine pre post line hpre
      (valueLine_ne_delimiter _ v line hline)]
    exact headerFold_valueLine _ isKey_title (fun c hc => by simp at hc; subst hc; decide)
      v hv line hline pre _ hpost

theorem ExtractFrontmatterData_value_witness :
    cleanEnds "0 9 * * *".toList ∧ delimiter ∉ ["tags: x".toList] ∧
    (ExtractFrontmatterData (some ⟨delimiter :: (["tags: x".toList] ++
      "review_schedule: \"0 9 * * *\"".toList ::
        ["title: T".toList, delimiter, "review_schedule: 1 1 1 1 1".toList]), false⟩)).schedule
      = "0 9 * * *".toList :=
  ⟨by decide, by decide,
    (ExtractFrontmatterData_value "0 9 * * *".toList (by decide) ["tags: x".toList]
      ["title: T".toList, delimiter, "review_schedule: 1 1 1 1 1".toList] (by decide)).1
      "review_schedule: \"0 9 * * *\"".toList (by decide) (by decide)⟩

/-- C15: the records `ScanDirectory` returns are exactly the records of the
visited documents that match, in walk order; so every returned record is the
record of a visited file whose header was read without error and whose
extracted schedule is non-empty, parses with `ParseCronSchedule` and matches
the time point under the selected mode (`MatchesTime` when exact, else
`MatchesToday`); a document whose schedule is empty or absent does not match,
its record is not in the result, and visiting it adds no record, in either
mode; and an entry matches exactly when it is such a file. -/
theorem ScanDirectory_records :
    (∀ (w : World) (dir : Str) (t : TimePoint) (exact : Bool) (out : List FileInfo)
        (flag : Bool), ScanDirectory w dir t exact = some (out, flag) →
      out = ((visitedEntries (w.walk dir)).filter (isMatchingEntry w t exact)).map
        (recordOf w ((w.abs dir).getD dir)) ∧
      (∀ r ∈ out, ∃ e ∈ w.walk dir, r = recordOf w ((w.abs dir).getD dir) e ∧
        e.walkErr = false ∧ e.isDir = false ∧
        HasSuffix (ToLower w.lowerTable e.path) ".md".toList = true ∧
        (ExtractFrontmatterData (w.openFile e.path)).err = false ∧
        r.Schedule = (ExtractFrontmatterData (w.openFile e.path)).schedule ∧
        r.Schedule ≠ [] ∧
        ∃ cs, ParseCronSchedule r.Schedule = Except.ok cs ∧
          (if exact = true then MatchesTime cs t else MatchesToday cs t) = some true) ∧
      (∀ e : WalkEntry, (ExtractFrontmatterData (w.openFile e.path)).schedule = [] →
        recordOf w ((w.abs dir).getD dir) e ∉ out)) ∧
    (∀ (w : World) (t : TimePoint) (exact : Bool) (e : WalkEntry),
      (ExtractFrontmatterData (w.openFile e.path)).schedule = [] →
      isMatchingEntry w t exact e = false) ∧
    (∀ (w : World) (absDir : Str) (t : TimePoint) (exact : Bool) (matched : List FileInfo)
        (e : WalkEntry), (ExtractFrontmatterData (w.openFile e.path)).schedule = [] →
      walkFn w absDir t exact matched e = some (matched, e.walkErr)) ∧
    (∀ (w : World) (t : TimePoint) (exact : Bool) (e : WalkEntry),
      isMatchingEntry w t exact e = true ↔
        e.walkErr = false ∧ e.isDir = false ∧
        HasSuffix (ToLower w.lowerTable e.path) ".md".toList = true ∧
        (ExtractFrontmatterData (w.openFile e.path)).err = false ∧
        (ExtractFrontmatterData (w.openFile e.path)).schedule ≠ [] ∧
        ∃ cs, ParseCronSchedule (ExtractFrontmatterData (w.openFile e.path)).schedule =
            Except.ok cs ∧
          (if exact = true then MatchesTime cs t else MatchesToday cs t) = some true) := by
  refine ⟨?_, fun w t exact e h => isMatchingEntry_empty_schedule w t exact e h,
    fun w absDir t exact matched e h => walkFn_empty_schedule w absDir t exact matched e h,
    fun w t exact e => isMatchingEntry_iff w t exact e⟩
  intro w dir t exact out flag h
  have hout := ScanDirectory_exact w dir t exact out flag h
  have hall : ∀ r ∈ out, ∃ e ∈ w.walk dir, r = recordOf w ((w.abs dir).getD dir) e ∧
      e.walkErr = false ∧ e.isDir = false ∧
      HasSuffix (ToLower w.lowerTable e.path) ".md".toList = true ∧
      (ExtractFrontmatterData (w.openFile e.path)).err = false ∧
      r.Schedule = (ExtractFrontmatterData (w.openFile e.path)).schedule ∧
      r.Schedule ≠ [] ∧
      ∃ cs, ParseCronSchedule r.Schedule = Except.ok cs ∧
        (if exact = true then MatchesTime cs t else MatchesToday cs t) = some true := by
    intro r hr
    rw [hout] at hr
    obtain ⟨e, he, rfl⟩ := List.mem_map.mp hr
    obtain ⟨hv, hm⟩ := List.mem_filter.mp he
    obtain ⟨h1, h2, h3, h4⟩ := isMatchingEntry_file w t exact e hm
    obtain ⟨hne, cs, hp, hmatch⟩ := isMatchingEntry_spec w t exact e hm
    exact ⟨e, visitedEntries_subset _ e hv, rfl, h1, h2, h3, h4, rfl, hne, cs, hp, hmatch⟩
  refine ⟨hout, hall, ?_⟩
  intro e hempty hmem
  obtain ⟨e', -, -, -, -, -, -, -, hne, -⟩ := hall _ hmem
  exact hne hempty

theorem ScanDirectory_records_witness :
    ScanDirectory sampleWorld ".".toList ⟨0, 10, 15, 1, 4⟩ true =
      some ([⟨"NOTE.MD".toList, "* * * * *".toList, "T".toList⟩], false) ∧
    [(⟨"NOTE.MD".toList, "* * * * *".toList, "T".toList⟩ : FileInfo)] =
      ((visitedEntries (sampleWorld.walk ".".toList)).filter
        (isMatchingEntry sampleWorld ⟨0, 10, 15, 1, 4⟩ true)).map
        (recordOf sampleWorld ((sampleWorld.abs ".".toList).getD ".".toList)) ∧
    recordOf sampleWorld ((sampleWorld.abs ".".toList).getD ".".toList)
      ⟨"empty.md".toList, false, false⟩ ∉
      [(⟨"NOTE.MD".toList, "* * * * *".toList, "T".toList⟩ : FileInfo)] ∧
    isMatchingEntry sampleWorld ⟨0, 10, 15, 1, 4⟩ true ⟨"sub/note.md".toList, false, false⟩
      = false ∧
    walkFn sampleWorld "/vault".toList ⟨0, 10, 15, 1, 4⟩ false [] ⟨"empty.md".toList, false, false⟩
      = some ([], false) :=
  ⟨by decide,
    (ScanDirectory_records.1 sampleWorld ".".toList ⟨0, 10, 15, 1, 4⟩ true _ false
      (by decide)).1,
    (ScanDirectory_records.1 sampleWorld ".".toList ⟨0, 10, 15, 1, 4⟩ true _ false
      (by decide)).2.2 ⟨"empty.md".toList, false, false⟩ (by decide),
    by decide,
    ScanDirectory_records.2.2.1 sampleWorld "/vault".toList ⟨0, 10, 15, 1, 4⟩ false []
      ⟨"empty.md".toList, false, false⟩ (by decide)⟩

/-- C16: the claim fails on the code for a document whose extension is not in
lower case: the scan accepts `NOTE.MD` (the extension test lower-cases the
path), but `main` removes only a literal `.md` suffix, so the printed link
keeps the extension. -/
theorem main_keeps_upper_case_extension (w : World) (t : TimePoint) (exact : Bool)
    (hwalk : w.walk ['.'] = [⟨['.'], false, true⟩, ⟨"NOTE.MD".toList, false, false⟩])
    (hopen : w.openFile "NOTE.MD".toList =
      some ⟨[delimiter, "review_schedule: * * * * *".toList, "title: T".toList, delimiter],
        false⟩)
    (hrel : w.rel ((w.abs ['.']).getD ['.']) ((w.abs "NOTE.MD".toList).getD []) =
      some "NOTE.MD".toList) :
    ScanDirectory w ['.'] t exact =
      some ([⟨"NOTE.MD".toList, "* * * * *".toList, "T".toList⟩], false) ∧
    main w ['.'] t exact = some ["- [T]([[NOTE.MD]])".toList] ∧
    Ext "NOTE.MD".toList = ".MD".toList := by
  have hx : ExtractFrontmatterData (some ⟨[delimiter, "review_schedule: * * * * *".toList,
      "title: T".toList, delimiter], false⟩) = ⟨"* * * * *".toList, "T".toList, false⟩ := by
    decide
  have hp : ParseCronSchedule "* * * * *".toList =
      Except.ok ⟨['*'], ['*'], ['*'], ['*'], ['*']⟩ := rfl
  have hm := every_minute_matches t exact
  have hl := ToLower_upper_note w.lowerTable
  have hs : HasSuffix "note.md".toList ".md".toList = true := by decide
  have hscan : ScanDirectory w ['.'] t exact =
      some ([⟨"NOTE.MD".toList, "* * * * *".toList, "T".toList⟩], false) := by
    unfold ScanDirectory
    rw [hwalk]
    simp only [walkLoop, walkFn, hopen, hx, hl, hs, hp, hm, hrel]
    simp
  refine ⟨hscan, ?_, by decide⟩
  unfold main
  rw [hscan]
  decide

theorem main_keeps_upper_case_extension_witness :
    main upperCaseWorld ['.'] ⟨30, 14, 15, 1, 4⟩ true = some ["- [T]([[NOTE.MD]])".toList] :=
  (main_keeps_upper_case_extension upperCaseWorld ⟨30, 14, 15, 1, 4⟩ true (by decide)
    (by decide) (by decide)).2.1

/-- C17: for every visited document that matches, its record is in the
result, and the records in the result are exactly these, each the record of
its own document; the title of that record is the title extracted from the
document's header when that is non-empty, and otherwise the base file name of
the document without its extension (title followed by extension is the base
name); a lone file `note.md` with schedule `0 9 * * *` and no title yields the
title `note` in date-only mode, at every time point. -/
theorem ScanDirectory_title :
    (∀ (w : World) (dir : Str) (t : TimePoint) (exact : Bool) (out : List FileInfo)
        (flag : Bool), ScanDirectory w dir t exact = some (out, flag) →
      out = ((visitedEntries (w.walk dir)).filter (isMatchingEntry w t exact)).map
        (recordOf w ((w.abs dir).getD dir)) ∧
      (∀ e ∈ visitedEntries (w.walk dir), isMatchingEntry w t exact e = true →
        ∃ r ∈ out, r = recordOf w ((w.abs dir).getD dir) e ∧
          r.Schedule = (ExtractFrontmatterData (w.openFile e.path)).schedule ∧
          ((ExtractFrontmatterData (w.openFile e.path)).title ≠ [] →
            r.Title = (ExtractFrontmatterData (w.openFile e.path)).title) ∧
          ((ExtractFrontmatterData (w.openFile e.path)).title = [] →
            r.Title = TrimSuffix (Base e.path) (Ext e.path) ∧
            r.Title ++ Ext e.path = Base e.path)) ∧
      (∀ r ∈ out, ∃ e ∈ visitedEntries (w.walk dir), isMatchingEntry w t exact e = true ∧
        r = recordOf w ((w.abs dir).getD dir) e ∧
        ((ExtractFrontmatterData (w.openFile e.path)).title ≠ [] →
          r.Title = (ExtractFrontmatterData (w.openFile e.path)).title) ∧
        ((ExtractFrontmatterData (w.openFile e.path)).title = [] →
          r.Title = TrimSuffix (Base e.path) (Ext e.path) ∧
          r.Title ++ Ext e.path = Base e.path))) ∧
    (∀ (w : World) (t : TimePoint),
      w.walk ['.'] = [⟨['.'], false, true⟩, ⟨"note.md".toList, false, false⟩] →
      w.openFile "note.md".toList =
        some ⟨[delimiter, "review_schedule: 0 9 * * *".toList, delimiter, "text".toList],
          false⟩ →
      ∃ p, ScanDirectory w ['.'] t false =
        some ([⟨p, "0 9 * * *".toList, "note".toList⟩], false)) := by
  constructor
  · intro w dir t exact out flag h
    have hout := ScanDirectory_exact w dir t exact out flag h
    refine ⟨hout, ?_, ?_⟩
    · intro e he hm
      refine ⟨recordOf w ((w.abs dir).getD dir) e, ?_, rfl, rfl,
        (recordOf_title w _ e).1, (recordOf_title w _ e).2⟩
      rw [hout]
      exact List.mem_map.mpr ⟨e, List.mem_filter.mpr ⟨he, hm⟩, rfl⟩
    · intro r hr
      rw [hout] at hr
      obtain ⟨e, he, rfl⟩ := List.mem_map.mp hr
      obtain ⟨hv, hm⟩ := List.mem_filter.mp he
      exact ⟨e, hv, hm, rfl, (recordOf_title w _ e).1, (recordOf_title w _ e).2⟩
  · intro w t hwalk hopen
    have hx : ExtractFrontmatterData (some ⟨[delimiter, "review_schedule: 0 9 * * *".toList,
        delimiter, "text".toList], false⟩) = ⟨"0 9 * * *".toList, [], false⟩ := by decide
    have hp : ParseCronSchedule "0 9 * * *".toList =
        Except.ok ⟨['0'], ['9'], ['*'], ['*'], ['*']⟩ := rfl
    have hm := daily_nine_matches_today t
    have hl := ToLower_lower_note w.lowerTable
    have hs : HasSuffix "note.md".toList ".md".toList = true := by decide
    have htitle : TrimSuffix (Base "note.md".toList) (Ext "note.md".toList) = "note".toList := by
      decide
    refine ⟨(w.rel ((w.abs ['.']).getD ['.']) ((w.abs "note.md".toList).getD [])).getD
      "note.md".toList, ?_⟩
    unfold ScanDirectory
    rw [hwalk]
    simp only [walkLoop, walkFn, hopen, hx, hl, hs, hp, hm, htitle]
    simp

theorem ScanDirectory_title_witness :
    ScanDirectory sampleWorld ".".toList ⟨0, 9, 15, 1, 4⟩ false =
      some ([⟨"NOTE.MD".toList, "* * * * *".toList, "T".toList⟩,
        ⟨"sub/note.md".toList, "0 9 * * *".toList, "note".toList⟩], false) ∧
    recordOf sampleWorld ((sampleWorld.abs ".".toList).getD ".".toList)
      ⟨"sub/note.md".toList, false, false⟩ =
      ⟨"sub/note.md".toList, "0 9 * * *".toList, "note".toList⟩ ∧
    (∃ r ∈ [(⟨"NOTE.MD".toList, "* * * * *".toList, "T".toList⟩ : FileInfo),
        ⟨"sub/note.md".toList, "0 9 * * *".toList, "note".toList⟩],
      r = recordOf sampleWorld ((sampleWorld.abs ".".toList).getD ".".toList)
        ⟨"sub/note.md".toList, false, false⟩ ∧
      r.Schedule = (ExtractFrontmatterData
        (sampleWorld.openFile "sub/note.md".toList)).schedule ∧
      ((ExtractFrontmatterData (sampleWorld.openFile "sub/note.md".toList)).title ≠ [] →
        r.Title = (ExtractFrontmatterData (sampleWorld.openFile "sub/note.md".toList)).title) ∧
      ((ExtractFrontmatterData (sampleWorld.openFile "sub/note.md".toList)).title = [] →
        r.Title = TrimSuffix (Base "sub/note.md".toList) (Ext "sub/note.md".toList) ∧
        r.Title ++ Ext "sub/note.md".toList = Base "sub/note.md".toList)) :=
  ⟨by decide, by decide,
    (ScanDirectory_title.1 sampleWorld ".".toList ⟨0, 9, 15, 1, 4⟩ false _ false
      (by decide)).2.1 ⟨"sub/note.md".toList, false, false⟩ (by decide) (by decide)⟩

/-- C18, refuted: `25 12 * * *` has five fields, so `ParseCronSchedule`
returns no error for it. -/
theorem ParseCronSchedule_25_12_no_error :
    ¬ ∃ e, ParseCronSchedule "25 12 * * *".toList = Except.error e := by
  rintro ⟨e, h⟩
  have hok : ParseCronSchedule "25 12 * * *".toList =
      Except.ok ⟨"25".toList, "12".toList, "*".toList, "*".toList, "*".toList⟩ := rfl
  rw [hok] at h
  cases h

/-- C18, amended: `ParseCronSchedule` applied to `25 12 * * *` succeeds, with
the fields 25, 12, `*`, `*`, `*`. -/
theorem ParseCronSchedule_25_12_ok :
    ParseCronSchedule "25 12 * * *".toList =
      Except.ok ⟨"25".toList, "12".toList, "*".toList, "*".toList, "*".toList⟩ ∧
    (tokens "25 12 * * *".toList).length = 5 :=
  ⟨rfl, by decide⟩

/-- C19: a field without a comma that contains a slash and whose part before
the slash is neither `*` nor a `start-end` range (a bare integer, or anything
else, or a field with two slashes) is false for every current value. -/
theorem matchesCronField_step_base (field : Str) (hc : ',' ∉ field) (hs : '/' ∈ field)
    (hbase : ∀ r s, Split field '/' = [r, s] → r ≠ ['*'] ∧ isRangeExpr r = false)
    (current max : Int) : matchesCronField field current max = some false := by
  have h1 : field ≠ ['*'] := by
    intro e; rw [e] at hs; simp at hs
  have h2 : Contains field ',' = false := by
    cases hC : Contains field ','
    · rfl
    · exact absurd ((Contains_iff field ',').mp hC) hc
  have h3 : Contains field '/' = true := (Contains_iff field '/').mpr hs
  unfold matchesCronField
  simp only [if_neg h1, h2, h3, if_true, Bool.false_eq_true, if_false]
  rcases hS : Split field '/' with _ | ⟨r, _ | ⟨s, _ | ⟨x, l⟩⟩⟩
  · rfl
  · rfl
  · obtain ⟨hr, hrange⟩ := hbase r s hS
    simp only []
    cases hA : Atoi s with
    | none => rfl
    | some step =>
      simp only [if_neg hr]
      by_cases h5 : Contains r '-' = true
      · simp only [h5, if_true]
        rcases hR : Split r '-' with _ | ⟨a, _ | ⟨b, _ | ⟨y, l'⟩⟩⟩
        · rfl
        · rfl
        · cases hAa : Atoi a with
          | none => simp [hAa]
          | some start =>
            cases hAb : Atoi b with
            | none => simp [hAa, hAb]
            | some end_ =>
              have htrue : isRangeExpr r = true := by simp [isRangeExpr, hR, hAa, hAb]
              rw [hrange] at htrue
              cases htrue
        · rfl
      · simp [h5]
  · rfl

theorem matchesCronField_step_base_witness :
    ',' ∉ "5/10".toList ∧ '/' ∈ "5/10".toList ∧
    Split "5/10".toList '/' = ["5".toList, "10".toList] ∧
    matchesCronField "5/10".toList 5 59 = some false ∧
    matchesCronField "1/2/3".toList 1 59 = some false :=
  ⟨by decide, by decide, by decide,
    matchesCronField_step_base "5/10".toList (by decide) (by decide)
      (by
        intro r s h
        have hr : r = "5".toList := by
          have h' : ["5".toList, "10".toList] = [r, s] := h
          simp at h'
          exact h'.1.symm
        subst hr
        exact ⟨by decide, by decide⟩)
      5 59,
    matchesCronField_step_base "1/2/3".toList (by decide) (by decide)
      (by
        intro r s h
        have h' : ["1".toList, "2".toList, "3".toList] = [r, s] := h
        simp at h')
      1 59⟩

/-- C20: for a document that opens with the delimiter and has no further
delimiter line, every remaining line is header: the schedule and the title are
the values of the last `review_schedule:` line and of the last `title:` line
after line 1, wherever they stand. -/
theorem ExtractFrontmatterData_unclosed (rest : List Str) (h : delimiter ∉ rest) :
    ExtractFrontmatterData (some ⟨delimiter :: rest, false⟩) =
      ⟨headerValue "review_schedule:".toList rest, headerValue "title:".toList rest, false⟩ := by
  rw [ExtractFrontmatterData_some, (scanLoop_document false rest h).2,
    headerFold_nil _ isKey_schedule, headerFold_nil _ isKey_title]

theorem ExtractFrontmatterData_unclosed_witness :
    delimiter ∉ ["title: A".toList, "# Heading".toList, "review_schedule: 0 9 * * *".toList,
      "text".toList, "title: B".toList, "review_schedule: 30 8 1 * *".toList] ∧
    ExtractFrontmatterData (some ⟨delimiter :: ["title: A".toList, "# Heading".toList,
      "review_schedule: 0 9 * * *".toList, "text".toList, "title: B".toList,
      "review_schedule: 30 8 1 * *".toList], false⟩) =
      ⟨"30 8 1 * *".toList, "B".toList, false⟩ :=
  ⟨by decide, (ExtractFrontmatterData_unclosed _ (by decide)).trans (by decide)⟩

end MarkdownReviewDaily
